import Mathlib

/-!
Verification of the attack-surface identification and control-recommendation
engine of `threat_model.py` (with the architecture data model of
`architecture.py`).  The Python classes become Lean structures; the two
engine functions `identify_attack_surfaces` and `suggest_security_controls`
become pure Lean functions, with the internal mutation of the Python code
(the name-keyed surface dictionary, the accumulating reason string, the
growing `potential_vulnerabilities` list, the dedup key set) turned into
explicit accumulator passing.  Strings are Lean `String`s; Python's `in`
on strings is substring containment, embedded as `strIn`; Python's `in`
on lists is membership with structural equality (the loaders resolve each
name to one shared object, so object identity and structural equality
coincide on loaded data).  A vulnerability's `cvss_score` is carried as
its decimal rendering (`Option String` instead of `Optional[float]`):
the engine never computes with the score, it only interpolates it into
reason text, so keeping the rendered form makes the embedding exact
without modelling floating point.
-/

namespace ThreatModel

/-- Single quote character, used by the engine's reason strings. -/
def sq : String := (Char.ofNat 39).toString

/-- Bool test: does `n` occur at the start of `h` (char-list version)? -/
def charsPre : List Char → List Char → Bool
  | [], _ => true
  | _ :: _, [] => false
  | a :: as, b :: bs => (a == b) && charsPre as bs

/-- Bool test: does `n` occur contiguously anywhere in the char list? -/
def charsSub (n : List Char) : List Char → Bool
  | [] => charsPre n []
  | b :: bs => charsPre n (b :: bs) || charsSub n bs

/-- Python's `needle in hay` on strings: substring containment. -/
def strIn (needle hay : String) : Bool := charsSub needle.data hay.data

/-- Python's `str.lower()` (ASCII case folding), written as a structural
map over the string's characters so that concrete runs evaluate. -/
def strLower (s : String) : String := ⟨s.data.map Char.toLower⟩

/-- Embedding of `architecture.NetworkZone`. -/
structure NetworkZone where
  name : String
deriving DecidableEq

/-- Embedding of `architecture.Service` (a component with a network zone). -/
structure Service where
  name : String
  port : Nat
  protocol : String
  processes_sensitive_data : Bool
  network_zone : NetworkZone
deriving DecidableEq

/-- Embedding of `architecture.Database` (a component with a network zone). -/
structure Database where
  name : String
  type : String
  stores_sensitive_data : Bool
  network_zone : NetworkZone
deriving DecidableEq

/-- Embedding of `architecture.Application`: the aggregate root. -/
structure Application where
  services : List Service
  databases : List Database
  network_zones : List NetworkZone
deriving DecidableEq

/-- Embedding of `threat_model.AttackVector`. -/
structure AttackVector where
  name : String
  description : String
  target_components : List String
  cwe_id : String
  ease_of_exploitation : String
  required_privileges : String
  mitigation_complexity : String
deriving DecidableEq

/-- Embedding of `threat_model.Vulnerability`, with `attack_vector` resolved to a
live object (the loader contract).  `cvss_score` is the rendered decimal
string of the Python float, `none` when the score is absent. -/
structure Vulnerability where
  name : String
  description : String
  attack_vector : AttackVector
  affected_components : List String
  severity : String
  cve_id : String
  cvss_score : Option String
  exploitability : String
  impact_description : String
deriving DecidableEq

/-- Embedding of `threat_model.SecurityControl` with `mitigates` resolved to live
`AttackVector` objects. -/
structure SecurityControl where
  name : String
  description : String
  mitigates : List AttackVector
  cost_to_implement : String
  effectiveness : String
  implementation_status : String
  owner : String
  related_vulnerabilities : List String
  residual_risk : String
deriving DecidableEq

/-- Embedding of `threat_model.IdentifiedAttackSurface`: the derived surface record. -/
structure IdentifiedAttackSurface where
  component_name : String
  component_type : String
  network_zone : String
  reason : String
  potential_vulnerabilities : List Vulnerability
deriving DecidableEq

/-- The inner `add_or_update_surface` of `identify_attack_surfaces`: the
Python name-keyed dict (insertion ordered) is an ordered list of surfaces
with pairwise distinct names; `dict.get(comp.name)` is the name test, the
in-place `reason +=` update is a pointwise map, and a fresh surface is
appended at the end (dict insertion order).  The caller passes
`comp.name`, the component type tag, `comp.network_zone.name` and the
triggering reason text. -/
def add_or_update_surface (m : List IdentifiedAttackSurface)
    (cname ctype czone txt : String) : List IdentifiedAttackSurface :=
  if cname ∈ m.map (fun s => s.component_name) then
    m.map (fun s =>
      if s.component_name = cname then
        if strIn txt s.reason then s
        else { s with reason := s.reason ++ "; " ++ txt }
      else s)
  else
    m ++ [⟨cname, ctype, czone, txt, []⟩]

/-- The service loop of `identify_attack_surfaces` (lines 104-109): rule 1
(public zone, case-insensitive) then rule 2 (processes sensitive data). -/
def scan_services (m : List IdentifiedAttackSurface) :
    List Service → List IdentifiedAttackSurface
  | [] => m
  | sv :: rest =>
    let m1 := if strLower sv.network_zone.name = "public" then
        add_or_update_surface m sv.name "Service" sv.network_zone.name
          "Publicly exposed service"
      else m
    let m2 := if sv.processes_sensitive_data then
        add_or_update_surface m1 sv.name "Service" sv.network_zone.name
          "Handles sensitive data"
      else m1
    scan_services m2 rest

/-- The database loop of `identify_attack_surfaces` (lines 111-113): rule 3
(stores sensitive data). -/
def scan_databases (m : List IdentifiedAttackSurface) :
    List Database → List IdentifiedAttackSurface
  | [] => m
  | db :: rest =>
    let m1 := if db.stores_sensitive_data then
        add_or_update_surface m db.name "Database" db.network_zone.name
          "Stores sensitive data"
      else m
    scan_databases m1 rest

/-- Phase 1 of `identify_attack_surfaces`: build the surface map by
scanning all services then all databases. -/
def surface_scan (app : Application) : List IdentifiedAttackSurface :=
  scan_databases (scan_services [] app.services) app.databases

/-- The vulnerability-attachment loop of `identify_attack_surfaces`
(lines 116-123) for one surface with name `cname` and type `ctype`,
accumulating onto `pv`: first the affected-components clause (empty list
or literal name membership, then `continue`), otherwise the type-based
clause on the attack vector's target components; each attachment is
skipped when the vulnerability is already present. -/
def scan_vulns (cname ctype : String) (pv : List Vulnerability) :
    List Vulnerability → List Vulnerability
  | [] => pv
  | v :: vs =>
    if v.affected_components = [] ∨ cname ∈ v.affected_components then
      scan_vulns cname ctype (if v ∈ pv then pv else pv ++ [v]) vs
    else if ctype ∈ v.attack_vector.target_components then
      scan_vulns cname ctype (if v ∈ pv then pv else pv ++ [v]) vs
    else
      scan_vulns cname ctype pv vs

/-- Embedding of `threat_model.identify_attack_surfaces` (lines 86-125). -/
def identify_attack_surfaces (app : Application)
    (known_vulnerabilities : List Vulnerability) :
    List IdentifiedAttackSurface :=
  (surface_scan app).map (fun s =>
    { s with potential_vulnerabilities :=
        (scan_vulns s.component_name s.component_type
          s.potential_vulnerabilities known_vulnerabilities) })

/-- Embedding of `threat_model.SuggestedControl`. -/
structure SuggestedControl where
  control : SecurityControl
  reason_for_suggestion : String
  applies_to_surface : IdentifiedAttackSurface
deriving DecidableEq

/-- Rendering of `cvss_str` (lines 152 and 161): the score's decimal text,
or `"N/A"` when the score is `None`. -/
def cvss_str (v : Vulnerability) : String := v.cvss_score.getD "N/A"

/-- Rendering of `cve_str` (lines 153 and 162): Python string truthiness,
so the empty CVE id renders as `"N/A"`. -/
def cve_str (v : Vulnerability) : String :=
  if v.cve_id = "" then "N/A" else v.cve_id

/-- The primary-rule reason text of `suggest_security_controls`
(lines 154-156). -/
def primaryReason (v : Vulnerability) (c : SecurityControl)
    (surfaceName : String) : String :=
  "Mitigates specific vulnerability " ++ sq ++ v.name ++ sq ++
  " (CVE: " ++ cve_str v ++ ", CVSS: " ++ cvss_str v ++
  ", Severity: " ++ v.severity ++ ") found on " ++ sq ++ surfaceName ++ sq ++
  ". Control Status: " ++ c.implementation_status ++ ", Owner: " ++ c.owner ++
  ", Effectiveness: " ++ c.effectiveness ++
  ", Residual Risk: " ++ c.residual_risk ++ "."

/-- The secondary-rule reason text of `suggest_security_controls`
(lines 163-165). -/
def secondaryReason (v : Vulnerability) (c : SecurityControl)
    (surfaceName : String) : String :=
  "Mitigates general attack vector " ++ sq ++ v.attack_vector.name ++ sq ++
  " relevant to vulnerability " ++ sq ++ v.name ++ sq ++
  " (CVE: " ++ cve_str v ++ ", CVSS: " ++ cvss_str v ++
  ", Severity: " ++ v.severity ++ ") on " ++ sq ++ surfaceName ++ sq ++
  ". Control Status: " ++ c.implementation_status ++ ", Owner: " ++ c.owner ++
  ", Effectiveness: " ++ c.effectiveness ++
  ", Residual Risk: " ++ c.residual_risk ++ "."

/-- The matching logic of `suggest_security_controls` for one
(surface, vulnerability, control) triple (lines 145-166): the primary
rule (specific vulnerability: name or non-empty CVE id listed in
`related_vulnerabilities`, guarded by the list's truthiness) and, only
when it did not fire, the secondary rule (the vulnerability's attack
vector is a member of `mitigates`); the result is the reason text when a
rule fired. -/
def controlMatch (surfaceName : String) (v : Vulnerability)
    (c : SecurityControl) : Option String :=
  if c.related_vulnerabilities ≠ [] ∧
      (v.name ∈ c.related_vulnerabilities ∨
        (v.cve_id ≠ "" ∧ v.cve_id ∈ c.related_vulnerabilities)) then
    some (primaryReason v c surfaceName)
  else if v.attack_vector ∈ c.mitigates then
    some (secondaryReason v c surfaceName)
  else
    none

/-- A dedup key of `suggest_security_controls`:
`(control.name, surface.component_name)` (line 141). -/
abbrev SuggKey := String × String

/-- The dedup key carried by an emitted suggestion. -/
def keyOf (sc : SuggestedControl) : SuggKey :=
  (sc.control.name, sc.applies_to_surface.component_name)

/-- The innermost loop of `suggest_security_controls` (lines 140-175):
scan the control catalog for one surface and one vulnerability, skipping
keys already in the dedup set, emitting a suggestion and recording the
key on each fire.  The Python set is an accumulated list queried by
membership. -/
def scan_controls (s : IdentifiedAttackSurface) (v : Vulnerability) :
    List SecurityControl → List SuggKey →
    List SuggestedControl × List SuggKey
  | [], added => ([], added)
  | c :: cs, added =>
    if (c.name, s.component_name) ∈ added then
      scan_controls s v cs added
    else
      match controlMatch s.component_name v c with
      | some r =>
        let rest := scan_controls s v cs ((c.name, s.component_name) :: added)
        (⟨c, r, s⟩ :: rest.1, rest.2)
      | none => scan_controls s v cs added

/-- The middle loop of `suggest_security_controls` (line 139): scan one
surface's potential vulnerabilities in attachment order. -/
def scan_surface_vulns (s : IdentifiedAttackSurface)
    (controls : List SecurityControl) :
    List Vulnerability → List SuggKey →
    List SuggestedControl × List SuggKey
  | [], added => ([], added)
  | v :: vs, added =>
    let r1 := scan_controls s v controls added
    let r2 := scan_surface_vulns s controls vs r1.2
    (r1.1 ++ r2.1, r2.2)

/-- The outer loop of `suggest_security_controls` (line 138): scan the
surfaces in input order; the dedup set is shared across the whole run. -/
def scan_surfaces (controls : List SecurityControl) :
    List IdentifiedAttackSurface → List SuggKey →
    List SuggestedControl × List SuggKey
  | [], added => ([], added)
  | s :: ss, added =>
    let r1 := scan_surface_vulns s controls s.potential_vulnerabilities added
    let r2 := scan_surfaces controls ss r1.2
    (r1.1 ++ r2.1, r2.2)

/-- Embedding of `threat_model.suggest_security_controls` (lines 133-177). -/
def suggest_security_controls (attack_surfaces : List IdentifiedAttackSurface)
    (available_controls : List SecurityControl) : List SuggestedControl :=
  (scan_surfaces available_controls attack_surfaces []).1

/-- The attachment condition of the vulnerability loop (lines 117-123),
as one predicate: the affected-components clause (empty list or literal
component-name membership) or the type-based clause on the attack
vector's target components. -/
def vulnMatches (cname ctype : String) (v : Vulnerability) : Prop :=
  v.affected_components = [] ∨ cname ∈ v.affected_components ∨
    ctype ∈ v.attack_vector.target_components

instance (cname ctype : String) (v : Vulnerability) :
    Decidable (vulnMatches cname ctype v) := by
  unfold vulnMatches; infer_instance

/-! Specification-side characterizations, written from the spec's words,
to be compared with the engine's output. -/

/-- Spec-side: does this service trigger an exposure rule (rule 1: public
zone, case-insensitive; rule 2: processes sensitive data)? -/
def serviceTriggers (sv : Service) : Prop :=
  strLower sv.network_zone.name = "public" ∨ sv.processes_sensitive_data = true

instance (sv : Service) : Decidable (serviceTriggers sv) := by
  unfold serviceTriggers; infer_instance

/-- Spec-side: does some component with this name trigger an exposure
rule (rule 3 for databases: stores sensitive data)? -/
def nameTriggered (app : Application) (n : String) : Prop :=
  (∃ sv ∈ app.services, sv.name = n ∧ serviceTriggers sv) ∨
  (∃ db ∈ app.databases, db.name = n ∧ db.stores_sensitive_data = true)

instance (app : Application) (n : String) : Decidable (nameTriggered app n) := by
  unfold nameTriggered; infer_instance

/-- Append a name unless it is already present (first-occurrence order). -/
def addName (acc : List String) (n : String) : List String :=
  if n ∈ acc then acc else acc ++ [n]

/-- Spec-side: record a service's name at the point of each of its
triggering rules (rule 1 then rule 2), keeping first occurrences. -/
def svcStep (acc : List String) (sv : Service) : List String :=
  let acc1 := if strLower sv.network_zone.name = "public" then
      addName acc sv.name else acc
  if sv.processes_sensitive_data then addName acc1 sv.name else acc1

/-- Spec-side: record a database's name when rule 3 triggers. -/
def dbStep (acc : List String) (db : Database) : List String :=
  if db.stores_sensitive_data then addName acc db.name else acc

/-- Spec-side surface order: the component names in the order their
component first triggered a rule, iterating all services (rule 1 then
rule 2) and then all databases, without duplicates. -/
def surfaceOrderSpec (app : Application) : List String :=
  app.databases.foldl dbStep (app.services.foldl svcStep [])

/-- All component names of an application, services first. -/
def allComponentNames (app : Application) : List String :=
  app.services.map (fun sv => sv.name) ++ app.databases.map (fun db => db.name)

/-! Heap-passing model of the pipeline, for the frame property.  The only
objects the Python engine ever mutates are the `IdentifiedAttackSurface`
records: the source contains no assignment to the application, its zones,
services or databases, nor to any vulnerability or control, so those are
passed by value, while surfaces live in an explicit heap (a list of
cells addressed by allocation index) so that writes are observable.  The
internal dict maps component names to cell addresses. -/

/-- Surface heap: one cell per allocated `IdentifiedAttackSurface`. -/
abbrev SurfHeap := List IdentifiedAttackSurface

/-- Read the surface cell at address `r`. -/
def hGet (h : SurfHeap) (r : Nat) : IdentifiedAttackSurface :=
  h.getD r ⟨"", "", "", "", []⟩

/-- Overwrite the surface cell at address `r`. -/
def hSet (h : SurfHeap) (r : Nat) (s : IdentifiedAttackSurface) : SurfHeap :=
  h.set r s

/-- Heap-passing `add_or_update_surface`: look the name up in the
name-to-address map; update the cell in place (the `reason +=`) or
allocate a fresh cell and record its address. -/
def add_or_update_surfaceH (h : SurfHeap) (m : List (String × Nat))
    (cname ctype czone txt : String) : SurfHeap × List (String × Nat) :=
  match m.find? (fun p => p.1 == cname) with
  | some p =>
    let s := hGet h p.2
    if strIn txt s.reason then (h, m)
    else (hSet h p.2 { s with reason := s.reason ++ "; " ++ txt }, m)
  | none =>
    (h ++ [⟨cname, ctype, czone, txt, []⟩], m ++ [(cname, h.length)])

/-- Heap-passing service loop of `identify_attack_surfaces`. -/
def scan_servicesH (hm : SurfHeap × List (String × Nat)) :
    List Service → SurfHeap × List (String × Nat)
  | [] => hm
  | sv :: rest =>
    let hm1 := if strLower sv.network_zone.name = "public" then
        add_or_update_surfaceH hm.1 hm.2 sv.name "Service"
          sv.network_zone.name "Publicly exposed service"
      else hm
    let hm2 := if sv.processes_sensitive_data then
        add_or_update_surfaceH hm1.1 hm1.2 sv.name "Service"
          sv.network_zone.name "Handles sensitive data"
      else hm1
    scan_servicesH hm2 rest

/-- Heap-passing database loop of `identify_attack_surfaces`. -/
def scan_databasesH (hm : SurfHeap × List (String × Nat)) :
    List Database → SurfHeap × List (String × Nat)
  | [] => hm
  | db :: rest =>
    let hm1 := if db.stores_sensitive_data then
        add_or_update_surfaceH hm.1 hm.2 db.name "Database"
          db.network_zone.name "Stores sensitive data"
      else hm
    scan_databasesH hm1 rest

/-- Heap-passing vulnerability-attachment phase: each surface cell the
identifier created is read, its vulnerability list grown, and the cell
written back (the in-place `append` of the source). -/
def attach_phaseH (known : List Vulnerability) (h : SurfHeap) :
    List (String × Nat) → SurfHeap
  | [] => h
  | p :: ps =>
    let s := hGet h p.2
    attach_phaseH known
      (hSet h p.2 { s with potential_vulnerabilities :=
        (scan_vulns s.component_name s.component_type
          s.potential_vulnerabilities known) }) ps

/-- Heap-passing `identify_attack_surfaces`: run against an arbitrary
pre-existing heap `h0`, returning the final heap and the addresses of
the surfaces the call created. -/
def identify_attack_surfacesH (app : Application)
    (known : List Vulnerability) (h0 : SurfHeap) : SurfHeap × List Nat :=
  let hm := scan_databasesH (scan_servicesH (h0, []) app.services)
    app.databases
  (attach_phaseH known hm.1 hm.2, hm.2.map (fun p => p.2))

/-- Heap-threaded outer loop of `suggest_security_controls`: surfaces are
read from the heap through their addresses; the body of the source
contains no assignment to any input object, so the heap is threaded
through unchanged read operations and handed back. -/
def scan_surfacesH (controls : List SecurityControl) (h : SurfHeap) :
    List Nat → List SuggKey →
    (List SuggestedControl × List SuggKey) × SurfHeap
  | [], added => (([], added), h)
  | r :: rs, added =>
    let s := hGet h r
    let r1 := scan_surface_vulns s controls s.potential_vulnerabilities added
    let r2 := scan_surfacesH controls h rs r1.2
    ((r1.1 ++ r2.1.1, r2.1.2), r2.2)

/-- Heap-threaded `suggest_security_controls`. -/
def suggest_security_controlsH (h : SurfHeap) (refs : List Nat)
    (controls : List SecurityControl) : List SuggestedControl × SurfHeap :=
  let r := scan_surfacesH controls h refs []
  (r.1.1, r.2)

/-! Runtime model with possibly-unresolved references.  The loader
contract guarantees every `Vulnerability.attack_vector` is resolved; this
model drops that guarantee (`attack_vector : Option AttackVector`,
`none` standing for Python's unresolved `None`) and mirrors the engine's
dynamic behavior on such data: dereferencing an unresolved reference
(`vuln.attack_vector.target_components`, line 121) raises
`AttributeError`, which the embedding signals through `Except`, while
`None in control.mitigates` (line 160) simply evaluates to false and the
secondary reason text (line 163) is only built after that membership
test succeeded. -/

/-- Variant of `Vulnerability` whose `attack_vector` reference may be unresolved. -/
structure VulnerabilityRT where
  name : String
  description : String
  attack_vector : Option AttackVector
  affected_components : List String
  severity : String
  cve_id : String
  cvss_score : Option String
  exploitability : String
  impact_description : String
deriving DecidableEq

/-- Variant of `IdentifiedAttackSurface` over possibly-unresolved vulnerabilities. -/
structure IdentifiedAttackSurfaceRT where
  component_name : String
  component_type : String
  network_zone : String
  reason : String
  potential_vulnerabilities : List VulnerabilityRT
deriving DecidableEq

/-- Variant of `SuggestedControl` over possibly-unresolved vulnerabilities. -/
structure SuggestedControlRT where
  control : SecurityControl
  reason_for_suggestion : String
  applies_to_surface : IdentifiedAttackSurfaceRT
deriving DecidableEq

/-- Function `add_or_update_surface` in the runtime model. -/
def add_or_update_surfaceRT (m : List IdentifiedAttackSurfaceRT)
    (cname ctype czone txt : String) : List IdentifiedAttackSurfaceRT :=
  if cname ∈ m.map (fun s => s.component_name) then
    m.map (fun s =>
      if s.component_name = cname then
        if strIn txt s.reason then s
        else { s with reason := s.reason ++ "; " ++ txt }
      else s)
  else
    m ++ [⟨cname, ctype, czone, txt, []⟩]

/-- The service loop in the runtime model. -/
def scan_servicesRT (m : List IdentifiedAttackSurfaceRT) :
    List Service → List IdentifiedAttackSurfaceRT
  | [] => m
  | sv :: rest =>
    let m1 := if strLower sv.network_zone.name = "public" then
        add_or_update_surfaceRT m sv.name "Service" sv.network_zone.name
          "Publicly exposed service"
      else m
    let m2 := if sv.processes_sensitive_data then
        add_or_update_surfaceRT m1 sv.name "Service" sv.network_zone.name
          "Handles sensitive data"
      else m1
    scan_servicesRT m2 rest

/-- The database loop in the runtime model. -/
def scan_databasesRT (m : List IdentifiedAttackSurfaceRT) :
    List Database → List IdentifiedAttackSurfaceRT
  | [] => m
  | db :: rest =>
    let m1 := if db.stores_sensitive_data then
        add_or_update_surfaceRT m db.name "Database" db.network_zone.name
          "Stores sensitive data"
      else m
    scan_databasesRT m1 rest

/-- The vulnerability-attachment loop in the runtime model: the
affected-components clause never touches the attack-vector reference
(it `continue`s past it); only the type-based clause dereferences it,
raising `AttributeError` when it is unresolved. -/
def scan_vulnsRT (cname ctype : String) (pv : List VulnerabilityRT) :
    List VulnerabilityRT → Except String (List VulnerabilityRT)
  | [] => Except.ok pv
  | v :: vs =>
    if v.affected_components = [] ∨ cname ∈ v.affected_components then
      scan_vulnsRT cname ctype (if v ∈ pv then pv else pv ++ [v]) vs
    else
      match v.attack_vector with
      | none => Except.error
          "AttributeError: NoneType object has no attribute target_components"
      | some av =>
        if ctype ∈ av.target_components then
          scan_vulnsRT cname ctype (if v ∈ pv then pv else pv ++ [v]) vs
        else
          scan_vulnsRT cname ctype pv vs

/-- The attachment phase over all surfaces in the runtime model. -/
def attach_allRT (known : List VulnerabilityRT) :
    List IdentifiedAttackSurfaceRT →
    Except String (List IdentifiedAttackSurfaceRT)
  | [] => Except.ok []
  | s :: ss =>
    match scan_vulnsRT s.component_name s.component_type
        s.potential_vulnerabilities known with
    | Except.error e => Except.error e
    | Except.ok pv =>
      match attach_allRT known ss with
      | Except.error e => Except.error e
      | Except.ok rest =>
        Except.ok ({ s with potential_vulnerabilities := pv } :: rest)

/-- Function `identify_attack_surfaces` in the runtime model: the whole call
either raises (`Except.error`) or returns the surface list. -/
def identify_attack_surfacesRT (app : Application)
    (known : List VulnerabilityRT) :
    Except String (List IdentifiedAttackSurfaceRT) :=
  attach_allRT known (scan_databasesRT (scan_servicesRT [] app.services)
    app.databases)

/-- Rendering `cve_str` in the runtime model. -/
def cve_strRT (v : VulnerabilityRT) : String :=
  if v.cve_id = "" then "N/A" else v.cve_id

/-- Rendering `cvss_str` in the runtime model. -/
def cvss_strRT (v : VulnerabilityRT) : String := v.cvss_score.getD "N/A"

/-- The matching logic of `suggest_security_controls` in the runtime
model: the primary rule never reads the attack-vector reference; the
secondary membership test on an unresolved reference is false (Python's
`None in list` of attack vectors), so the reference is never
dereferenced and no error can arise. -/
def controlMatchRT (surfaceName : String) (v : VulnerabilityRT)
    (c : SecurityControl) : Option String :=
  if c.related_vulnerabilities ≠ [] ∧
      (v.name ∈ c.related_vulnerabilities ∨
        (v.cve_id ≠ "" ∧ v.cve_id ∈ c.related_vulnerabilities)) then
    some ("Mitigates specific vulnerability " ++ sq ++ v.name ++ sq ++
      " (CVE: " ++ cve_strRT v ++ ", CVSS: " ++ cvss_strRT v ++
      ", Severity: " ++ v.severity ++ ") found on " ++ sq ++ surfaceName ++
      sq ++ ". Control Status: " ++ c.implementation_status ++ ", Owner: " ++
      c.owner ++ ", Effectiveness: " ++ c.effectiveness ++
      ", Residual Risk: " ++ c.residual_risk ++ ".")
  else
    match v.attack_vector with
    | none => none
    | some av =>
      if av ∈ c.mitigates then
        some ("Mitigates general attack vector " ++ sq ++ av.name ++ sq ++
          " relevant to vulnerability " ++ sq ++ v.name ++ sq ++
          " (CVE: " ++ cve_strRT v ++ ", CVSS: " ++ cvss_strRT v ++
          ", Severity: " ++ v.severity ++ ") on " ++ sq ++ surfaceName ++
          sq ++ ". Control Status: " ++ c.implementation_status ++
          ", Owner: " ++ c.owner ++ ", Effectiveness: " ++ c.effectiveness ++
          ", Residual Risk: " ++ c.residual_risk ++ ".")
      else none

/-- Innermost control loop in the runtime model. -/
def scan_controlsRT (s : IdentifiedAttackSurfaceRT) (v : VulnerabilityRT) :
    List SecurityControl → List SuggKey →
    List SuggestedControlRT × List SuggKey
  | [], added => ([], added)
  | c :: cs, added =>
    if (c.name, s.component_name) ∈ added then
      scan_controlsRT s v cs added
    else
      match controlMatchRT s.component_name v c with
      | some r =>
        let rest := scan_controlsRT s v cs ((c.name, s.component_name) :: added)
        (⟨c, r, s⟩ :: rest.1, rest.2)
      | none => scan_controlsRT s v cs added

/-- Middle vulnerability loop in the runtime model. -/
def scan_surface_vulnsRT (s : IdentifiedAttackSurfaceRT)
    (controls : List SecurityControl) :
    List VulnerabilityRT → List SuggKey →
    List SuggestedControlRT × List SuggKey
  | [], added => ([], added)
  | v :: vs, added =>
    let r1 := scan_controlsRT s v controls added
    let r2 := scan_surface_vulnsRT s controls vs r1.2
    (r1.1 ++ r2.1, r2.2)

/-- Outer surface loop in the runtime model. -/
def scan_surfacesRT (controls : List SecurityControl) :
    List IdentifiedAttackSurfaceRT → List SuggKey →
    List SuggestedControlRT × List SuggKey
  | [], added => ([], added)
  | s :: ss, added =>
    let r1 := scan_surface_vulnsRT s controls s.potential_vulnerabilities added
    let r2 := scan_surfacesRT controls ss r1.2
    (r1.1 ++ r2.1, r2.2)

/-- Function `suggest_security_controls` in the runtime model: a total function,
never raising, whatever unresolved references the input contains. -/
def suggest_security_controlsRT
    (attack_surfaces : List IdentifiedAttackSurfaceRT)
    (available_controls : List SecurityControl) : List SuggestedControlRT :=
  (scan_surfacesRT available_controls attack_surfaces []).1

/-! Concrete example data, used to instantiate the theorems below. -/

/-- Example: the public network zone. -/
def zPublic : NetworkZone := ⟨"public"⟩

/-- Example: a public service that also processes sensitive data. -/
def svWeb : Service := ⟨"Web", 443, "https", true, zPublic⟩

/-- Example: an application with the one service `Web`. -/
def exApp : Application := ⟨[svWeb], [], [zPublic]⟩

/-- Example: an attack vector targeting services. -/
def avXSS : AttackVector :=
  ⟨"XSS", "cross-site scripting", ["Service"], "CWE-79", "Low", "None", "Medium"⟩

/-- Example: a vulnerability applying to any component (empty
`affected_components`). -/
def vGeneric : Vulnerability :=
  ⟨"GenericV", "generic weakness", avXSS, [], "High", "", none, "High", "impact"⟩

/-- Example: the surface `identify_attack_surfaces` derives for `Web`
from `exApp` with catalog `[vGeneric]`. -/
def exSurfaceWeb : IdentifiedAttackSurface :=
  ⟨"Web", "Service", "public",
    "Publicly exposed service; Handles sensitive data", [vGeneric]⟩

/-- Example: a vulnerability matched by `cBoth` only through its attack
vector (its name is not in the control's `related_vulnerabilities`). -/
def vFirst : Vulnerability :=
  ⟨"VFirst", "first weakness", avXSS, [], "Low", "", none, "Low", "impact"⟩

/-- Example: a vulnerability that satisfies both of `cBoth`'s rules: its
name is listed in `related_vulnerabilities` and its attack vector is in
`mitigates`. -/
def vBoth : Vulnerability :=
  ⟨"VBoth", "second weakness", avXSS, [], "High", "", none, "High", "impact"⟩

/-- Example: a control that mitigates the `XSS` vector and is directly
related to `VBoth`. -/
def cBoth : SecurityControl :=
  ⟨"CSP", "content security policy", [avXSS], "Low", "High", "Planned",
    "AppSec", ["VBoth"], "Low"⟩

/-- Example: a surface carrying `vFirst` before `vBoth`. -/
def sTwoVulns : IdentifiedAttackSurface :=
  ⟨"Web", "Service", "public", "Publicly exposed service",
    [vFirst, vBoth]⟩

/-- Example: a surface carrying only `vBoth`. -/
def sOneVuln : IdentifiedAttackSurface :=
  ⟨"Api", "Service", "public", "Publicly exposed service", [vBoth]⟩

/-- Example: a second surface record with the same component name as
`sTwoVulns` but different contents. -/
def sSameName : IdentifiedAttackSurface :=
  ⟨"Web", "Service", "public", "Handles sensitive data", [vBoth]⟩

/-- Example: a vulnerability whose attack-vector reference was never
resolved (runtime model), with empty `affected_components`. -/
def vUnresolved : VulnerabilityRT :=
  ⟨"VUnresolved", "weakness with unresolved vector", none, [], "High", "",
    none, "High", "impact"⟩

/-- Example: the surface the runtime model derives for `Web` from
`exApp` with `vUnresolved` silently attached. -/
def exSurfaceWebRT : IdentifiedAttackSurfaceRT :=
  ⟨"Web", "Service", "public",
    "Publicly exposed service; Handles sensitive data", [vUnresolved]⟩

/-- Frame invariant of the heap-passing surface scan: the heap only
grows, the cells that pre-existed the call are untouched, and every
address recorded in the name map points at a cell the call created. -/
def HeapInv (h0 : SurfHeap) (hm : SurfHeap × List (String × Nat)) : Prop :=
  h0.length ≤ hm.1.length ∧
  (∀ i, i < h0.length → hm.1[i]? = h0[i]?) ∧
  (∀ p ∈ hm.2, h0.length ≤ p.2 ∧ p.2 < hm.1.length)

/-! ### Lemmas about the vulnerability-attachment loop -/

theorem mem_addVuln (pv : List Vulnerability) (v x : Vulnerability) :
    x ∈ (if v ∈ pv then pv else pv ++ [v]) ↔ x ∈ pv ∨ x = v := by
  by_cases h : v ∈ pv
  · simp only [if_pos h]
    constructor
    · exact Or.inl
    · rintro (hx | rfl) <;> assumption
  · simp [if_neg h]

theorem mem_scan_vulns (cname ctype : String) :
    ∀ (vs pv : List Vulnerability) (x : Vulnerability),
    x ∈ scan_vulns cname ctype pv vs ↔
      x ∈ pv ∨ (x ∈ vs ∧ vulnMatches cname ctype x) := by
  intro vs
  induction vs with
  | nil => intro pv x; simp [scan_vulns]
  | cons v vs ih =>
    intro pv x
    rw [scan_vulns]
    by_cases h1 : v.affected_components = [] ∨ cname ∈ v.affected_components
    · have hM : vulnMatches cname ctype v := by
        unfold vulnMatches; tauto
      rw [if_pos h1, ih, mem_addVuln]
      simp only [List.mem_cons]
      constructor
      · rintro ((hx | rfl) | ⟨hx, hm⟩) <;> tauto
      · rintro (hx | ⟨hx | hx, hm⟩) <;> subst_eqs <;> tauto
    · rw [if_neg h1]
      by_cases h2 : ctype ∈ v.attack_vector.target_components
      · have hM : vulnMatches cname ctype v := by
          unfold vulnMatches; tauto
        rw [if_pos h2, ih, mem_addVuln]
        simp only [List.mem_cons]
        constructor
        · rintro ((hx | rfl) | ⟨hx, hm⟩) <;> tauto
        · rintro (hx | ⟨hx | hx, hm⟩) <;> subst_eqs <;> tauto
      · have hM : ¬ vulnMatches cname ctype v := by
          unfold vulnMatches; tauto
        rw [if_neg h2, ih]
        simp only [List.mem_cons]
        constructor
        · tauto
        · rintro (hx | ⟨hx | hx, hm⟩) <;> subst_eqs <;> tauto

theorem scan_vulns_split (cname ctype : String) :
    ∀ (vs pv : List Vulnerability),
    ∃ ex, scan_vulns cname ctype pv vs = pv ++ ex ∧ ex.Sublist vs := by
  intro vs
  induction vs with
  | nil => intro pv; exact ⟨[], by simp [scan_vulns], List.Sublist.refl []⟩
  | cons v vs ih =>
    intro pv
    rw [scan_vulns]
    by_cases h1 : v.affected_components = [] ∨ cname ∈ v.affected_components
    · rw [if_pos h1]
      by_cases hv : v ∈ pv
      · rw [if_pos hv]
        obtain ⟨ex, heq, hsub⟩ := ih pv
        exact ⟨ex, heq, hsub.trans (List.sublist_cons_self v vs)⟩
      · rw [if_neg hv]
        obtain ⟨ex, heq, hsub⟩ := ih (pv ++ [v])
        exact ⟨v :: ex, by simpa using heq, hsub.cons₂ v⟩
    · rw [if_neg h1]
      by_cases h2 : ctype ∈ v.attack_vector.target_components
      · rw [if_pos h2]
        by_cases hv : v ∈ pv
        · rw [if_pos hv]
          obtain ⟨ex, heq, hsub⟩ := ih pv
          exact ⟨ex, heq, hsub.trans (List.sublist_cons_self v vs)⟩
        · rw [if_neg hv]
          obtain ⟨ex, heq, hsub⟩ := ih (pv ++ [v])
          exact ⟨v :: ex, by simpa using heq, hsub.cons₂ v⟩
      · rw [if_neg h2]
        obtain ⟨ex, heq, hsub⟩ := ih pv
        exact ⟨ex, heq, hsub.trans (List.sublist_cons_self v vs)⟩

theorem nodup_scan_vulns (cname ctype : String) :
    ∀ (vs pv : List Vulnerability), pv.Nodup →
    (scan_vulns cname ctype pv vs).Nodup := by
  intro vs
  induction vs with
  | nil => intro pv h; simpa [scan_vulns] using h
  | cons v vs ih =>
    intro pv h
    rw [scan_vulns]
    have hadd : (if v ∈ pv then pv else pv ++ [v]).Nodup := by
      by_cases hv : v ∈ pv
      · simpa [if_pos hv] using h
      · rw [if_neg hv]
        simpa [List.nodup_append] using ⟨h, hv⟩
    by_cases h1 : v.affected_components = [] ∨ cname ∈ v.affected_components
    · rw [if_pos h1]; exact ih _ hadd
    · rw [if_neg h1]
      by_cases h2 : ctype ∈ v.attack_vector.target_components
      · rw [if_pos h2]; exact ih _ hadd
      · rw [if_neg h2]; exact ih _ h

/-! ### Lemmas about phase 1 (surface creation) -/

theorem pv_add_or_update (m : List IdentifiedAttackSurface)
    (cname ctype czone txt : String)
    (hm : ∀ s ∈ m, s.potential_vulnerabilities = []) :
    ∀ s ∈ add_or_update_surface m cname ctype czone txt,
      s.potential_vulnerabilities = [] := by
  intro s hs
  unfold add_or_update_surface at hs
  by_cases h : cname ∈ m.map (fun s => s.component_name)
  · rw [if_pos h] at hs
    obtain ⟨s0, hs0, heq⟩ := List.mem_map.mp hs
    by_cases h1 : s0.component_name = cname
    · rw [if_pos h1] at heq
      by_cases h2 : strIn txt s0.reason
      · rw [if_pos h2] at heq; subst heq; exact hm s0 hs0
      · rw [if_neg h2] at heq; subst heq; exact hm s0 hs0
    · rw [if_neg h1] at heq; subst heq; exact hm s0 hs0
  · rw [if_neg h] at hs
    rcases List.mem_append.mp hs with h1 | h1
    · exact hm s h1
    · simp only [List.mem_singleton] at h1; subst h1; rfl

theorem pv_scan_services :
    ∀ (svs : List Service) (m : List IdentifiedAttackSurface),
    (∀ s ∈ m, s.potential_vulnerabilities = []) →
    ∀ s ∈ scan_services m svs, s.potential_vulnerabilities = [] := by
  intro svs
  induction svs with
  | nil => intro m hm; exact hm
  | cons sv rest ih =>
    intro m hm
    rw [scan_services]
    apply ih
    by_cases h1 : strLower sv.network_zone.name = "public" <;>
      by_cases h2 : sv.processes_sensitive_data <;>
      simp only [if_pos, if_neg, h1, h2, if_true, if_false] <;>
      first
        | exact pv_add_or_update _ _ _ _ _ (pv_add_or_update _ _ _ _ _ hm)
        | exact pv_add_or_update _ _ _ _ _ hm
        | exact hm

theorem pv_scan_databases :
    ∀ (dbs : List Database) (m : List IdentifiedAttackSurface),
    (∀ s ∈ m, s.potential_vulnerabilities = []) →
    ∀ s ∈ scan_databases m dbs, s.potential_vulnerabilities = [] := by
  intro dbs
  induction dbs with
  | nil => intro m hm; exact hm
  | cons db rest ih =>
    intro m hm
    rw [scan_databases]
    apply ih
    by_cases h1 : db.stores_sensitive_data <;>
      simp only [if_pos, if_neg, h1, if_true, if_false] <;>
      first
        | exact pv_add_or_update _ _ _ _ _ hm
        | exact hm

theorem pv_surface_scan (app : Application) :
    ∀ s ∈ surface_scan app, s.potential_vulnerabilities = [] := by
  unfold surface_scan
  exact pv_scan_databases _ _ (pv_scan_services _ _ (by intro s hs; cases hs))

/-! ### Claim C3: union semantics of vulnerability attachment -/

/-- C3: for every surface produced by `identify_attack_surfaces` and
every vulnerability of the catalog, the vulnerability is attached to the
surface if and only if its `affected_components` is empty, or the
surface's component name is listed in `affected_components`, or the
surface's component type is listed in the attack vector's
`target_components`: the clauses combine as an independent OR, so a
non-empty `affected_components` that excludes the surface does not
suppress the type-based fallback, and an empty `affected_components`
attaches the vulnerability to every surface. -/
theorem c3_attachment_union_semantics (app : Application)
    (known : List Vulnerability) (S : IdentifiedAttackSurface)
    (hS : S ∈ identify_attack_surfaces app known)
    (v : Vulnerability) (hv : v ∈ known) :
    v ∈ S.potential_vulnerabilities ↔
      (v.affected_components = [] ∨
        S.component_name ∈ v.affected_components ∨
        S.component_type ∈ v.attack_vector.target_components) := by
  unfold identify_attack_surfaces at hS
  obtain ⟨s0, hs0, rfl⟩ := List.mem_map.mp hS
  have hpv := pv_surface_scan app s0 hs0
  show v ∈ scan_vulns s0.component_name s0.component_type
      s0.potential_vulnerabilities known ↔ _
  rw [hpv, mem_scan_vulns]
  simp only [List.not_mem_nil, false_or]
  constructor
  · rintro ⟨-, hm⟩; exact hm
  · intro hm; exact ⟨hv, hm⟩

/-- Witness for C3 at a concrete input: the generic vulnerability with
empty `affected_components` is attached to the `Web` surface. -/
theorem c3_attachment_union_semantics_witness :
    exSurfaceWeb ∈ identify_attack_surfaces exApp [vGeneric] ∧
    vGeneric ∈ [vGeneric] ∧
    (vGeneric ∈ exSurfaceWeb.potential_vulnerabilities ↔
      (vGeneric.affected_components = [] ∨
        exSurfaceWeb.component_name ∈ vGeneric.affected_components ∨
        exSurfaceWeb.component_type ∈
          vGeneric.attack_vector.target_components)) :=
  ⟨by decide, by decide,
    c3_attachment_union_semantics exApp [vGeneric] exSurfaceWeb (by decide)
      vGeneric (by decide)⟩

/-! ### Claim C6: attached vulnerability lists are duplicate-free -/

/-- C6: each vulnerability appears at most once in a surface's
`potential_vulnerabilities` (a second satisfied clause or a duplicate
catalog entry leaves one entry), and the list is a sublist of the
catalog, i.e. it preserves discovery (catalog-scan) order. -/
theorem c6_potential_vulnerabilities_nodup (app : Application)
    (known : List Vulnerability) (S : IdentifiedAttackSurface)
    (hS : S ∈ identify_attack_surfaces app known) :
    S.potential_vulnerabilities.Nodup ∧
      S.potential_vulnerabilities.Sublist known := by
  unfold identify_attack_surfaces at hS
  obtain ⟨s0, hs0, rfl⟩ := List.mem_map.mp hS
  have hpv := pv_surface_scan app s0 hs0
  constructor
  · show (scan_vulns s0.component_name s0.component_type
        s0.potential_vulnerabilities known).Nodup
    exact nodup_scan_vulns _ _ _ _ (hpv ▸ List.nodup_nil)
  · show (scan_vulns s0.component_name s0.component_type
        s0.potential_vulnerabilities known).Sublist known
    obtain ⟨ex, heq, hsub⟩ := scan_vulns_split s0.component_name
      s0.component_type known s0.potential_vulnerabilities
    rw [heq, hpv, List.nil_append]
    exact hsub

/-- Witness for C6 at a concrete input. -/
theorem c6_potential_vulnerabilities_nodup_witness :
    exSurfaceWeb ∈ identify_attack_surfaces exApp [vGeneric] ∧
    (exSurfaceWeb.potential_vulnerabilities.Nodup ∧
      exSurfaceWeb.potential_vulnerabilities.Sublist [vGeneric]) :=
  ⟨by decide,
    c6_potential_vulnerabilities_nodup exApp [vGeneric] exSurfaceWeb
      (by decide)⟩

/-! ### Lemmas: component names through phase 1 -/

theorem mem_addName (acc : List String) (n x : String) :
    x ∈ addName acc n ↔ x ∈ acc ∨ x = n := by
  unfold addName
  by_cases h : n ∈ acc
  · rw [if_pos h]
    constructor
    · exact Or.inl
    · rintro (hx | rfl) <;> assumption
  · rw [if_neg h]; simp

theorem nodup_addName (acc : List String) (n : String) (h : acc.Nodup) :
    (addName acc n).Nodup := by
  unfold addName
  by_cases hn : n ∈ acc
  · rwa [if_pos hn]
  · rw [if_neg hn]
    simpa [List.nodup_append] using ⟨h, hn⟩

theorem names_add_or_update (m : List IdentifiedAttackSurface)
    (cname ctype czone txt : String) :
    (add_or_update_surface m cname ctype czone txt).map
        (fun s => s.component_name)
      = addName (m.map (fun s => s.component_name)) cname := by
  unfold add_or_update_surface addName
  by_cases h : cname ∈ m.map (fun s => s.component_name)
  · rw [if_pos h, if_pos h, List.map_map]
    apply List.map_congr_left
    intro s _
    simp only [Function.comp]
    by_cases h1 : s.component_name = cname
    · rw [if_pos h1]
      by_cases h2 : strIn txt s.reason
      · rw [if_pos h2]
      · rw [if_neg h2]
    · rw [if_neg h1]
  · rw [if_neg h, if_neg h, List.map_append]
    rfl

theorem names_scan_services :
    ∀ (svs : List Service) (m : List IdentifiedAttackSurface),
    (scan_services m svs).map (fun s => s.component_name)
      = svs.foldl svcStep (m.map (fun s => s.component_name)) := by
  intro svs
  induction svs with
  | nil => intro m; rfl
  | cons sv rest ih =>
    intro m
    rw [scan_services, List.foldl_cons, ih]
    congr 1
    unfold svcStep
    by_cases h1 : strLower sv.network_zone.name = "public"
    · by_cases h2 : sv.processes_sensitive_data = true
      · simp only [if_pos h1, if_pos h2, names_add_or_update]
      · simp only [if_pos h1, if_neg h2, names_add_or_update]
    · by_cases h2 : sv.processes_sensitive_data = true
      · simp only [if_neg h1, if_pos h2, names_add_or_update]
      · simp only [if_neg h1, if_neg h2]

theorem names_scan_databases :
    ∀ (dbs : List Database) (m : List IdentifiedAttackSurface),
    (scan_databases m dbs).map (fun s => s.component_name)
      = dbs.foldl dbStep (m.map (fun s => s.component_name)) := by
  intro dbs
  induction dbs with
  | nil => intro m; rfl
  | cons db rest ih =>
    intro m
    rw [scan_databases, List.foldl_cons, ih]
    congr 1
    unfold dbStep
    by_cases h1 : db.stores_sensitive_data = true
    · simp only [if_pos h1, names_add_or_update]
    · simp only [if_neg h1]

theorem names_surface_scan (app : Application) :
    (surface_scan app).map (fun s => s.component_name)
      = surfaceOrderSpec app := by
  unfold surface_scan surfaceOrderSpec
  rw [names_scan_databases, names_scan_services]
  rfl

theorem names_identify (app : Application) (vulns : List Vulnerability) :
    (identify_attack_surfaces app vulns).map (fun s => s.component_name)
      = surfaceOrderSpec app := by
  unfold identify_attack_surfaces
  rw [List.map_map, ← names_surface_scan]
  apply List.map_congr_left
  intro s _
  rfl

theorem mem_svcStep (acc : List String) (sv : Service) (x : String) :
    x ∈ svcStep acc sv ↔ x ∈ acc ∨ (x = sv.name ∧ serviceTriggers sv) := by
  unfold svcStep serviceTriggers
  by_cases h1 : strLower sv.network_zone.name = "public"
  · by_cases h2 : sv.processes_sensitive_data = true
    · simp only [if_pos h1, if_pos h2, mem_addName]; tauto
    · simp only [if_pos h1, if_neg h2, mem_addName]; tauto
  · by_cases h2 : sv.processes_sensitive_data = true
    · simp only [if_neg h1, if_pos h2, mem_addName]; tauto
    · simp only [if_neg h1, if_neg h2]; tauto

theorem mem_dbStep (acc : List String) (db : Database) (x : String) :
    x ∈ dbStep acc db ↔ x ∈ acc ∨
      (x = db.name ∧ db.stores_sensitive_data = true) := by
  unfold dbStep
  by_cases h1 : db.stores_sensitive_data = true
  · simp only [if_pos h1, mem_addName]; tauto
  · simp only [if_neg h1]; tauto

theorem mem_svcFold :
    ∀ (svs : List Service) (acc : List String) (x : String),
    x ∈ svs.foldl svcStep acc ↔
      x ∈ acc ∨ ∃ sv ∈ svs, x = sv.name ∧ serviceTriggers sv := by
  intro svs
  induction svs with
  | nil => intro acc x; simp
  | cons sv rest ih =>
    intro acc x
    rw [List.foldl_cons, ih, mem_svcStep]
    simp only [List.mem_cons]
    constructor
    · rintro ((hx | hx) | ⟨sv', hsv', hx⟩)
      · exact Or.inl hx
      · exact Or.inr ⟨sv, Or.inl rfl, hx⟩
      · exact Or.inr ⟨sv', Or.inr hsv', hx⟩
    · rintro (hx | ⟨sv', hsv' | hsv', hx⟩)
      · exact Or.inl (Or.inl hx)
      · subst hsv'; exact Or.inl (Or.inr hx)
      · exact Or.inr ⟨sv', hsv', hx⟩

theorem mem_dbFold :
    ∀ (dbs : List Database) (acc : List String) (x : String),
    x ∈ dbs.foldl dbStep acc ↔
      x ∈ acc ∨ ∃ db ∈ dbs, x = db.name ∧ db.stores_sensitive_data = true := by
  intro dbs
  induction dbs with
  | nil => intro acc x; simp
  | cons db rest ih =>
    intro acc x
    rw [List.foldl_cons, ih, mem_dbStep]
    simp only [List.mem_cons]
    constructor
    · rintro ((hx | hx) | ⟨db', hdb', hx⟩)
      · exact Or.inl hx
      · exact Or.inr ⟨db, Or.inl rfl, hx⟩
      · exact Or.inr ⟨db', Or.inr hdb', hx⟩
    · rintro (hx | ⟨db', hdb' | hdb', hx⟩)
      · exact Or.inl (Or.inl hx)
      · subst hdb'; exact Or.inl (Or.inr hx)
      · exact Or.inr ⟨db', hdb', hx⟩

theorem mem_surfaceOrderSpec (app : Application) (x : String) :
    x ∈ surfaceOrderSpec app ↔ nameTriggered app x := by
  unfold surfaceOrderSpec nameTriggered
  rw [mem_dbFold, mem_svcFold]
  simp only [List.not_mem_nil, false_or]
  constructor
  · rintro (⟨sv, hsv, rfl, ht⟩ | ⟨db, hdb, rfl, ht⟩)
    · exact Or.inl ⟨sv, hsv, rfl, ht⟩
    · exact Or.inr ⟨db, hdb, rfl, ht⟩
  · rintro (⟨sv, hsv, rfl, ht⟩ | ⟨db, hdb, rfl, ht⟩)
    · exact Or.inl ⟨sv, hsv, rfl, ht⟩
    · exact Or.inr ⟨db, hdb, rfl, ht⟩

theorem nodup_svcFold :
    ∀ (svs : List Service) (acc : List String), acc.Nodup →
    (svs.foldl svcStep acc).Nodup := by
  intro svs
  induction svs with
  | nil => intro acc h; exact h
  | cons sv rest ih =>
    intro acc h
    rw [List.foldl_cons]
    apply ih
    unfold svcStep
    by_cases h1 : strLower sv.network_zone.name = "public"
    · by_cases h2 : sv.processes_sensitive_data = true
      · simp only [if_pos h1, if_pos h2]
        exact nodup_addName _ _ (nodup_addName _ _ h)
      · simp only [if_pos h1, if_neg h2]
        exact nodup_addName _ _ h
    · by_cases h2 : sv.processes_sensitive_data = true
      · simp only [if_neg h1, if_pos h2]
        exact nodup_addName _ _ h
      · simp only [if_neg h1, if_neg h2]
        exact h

theorem nodup_dbFold :
    ∀ (dbs : List Database) (acc : List String), acc.Nodup →
    (dbs.foldl dbStep acc).Nodup := by
  intro dbs
  induction dbs with
  | nil => intro acc h; exact h
  | cons db rest ih =>
    intro acc h
    rw [List.foldl_cons]
    apply ih
    unfold dbStep
    by_cases h1 : db.stores_sensitive_data = true
    · simp only [if_pos h1]
      exact nodup_addName _ _ h
    · simp only [if_neg h1]
      exact h

theorem nodup_surfaceOrderSpec (app : Application) :
    (surfaceOrderSpec app).Nodup :=
  nodup_dbFold _ _ (nodup_svcFold _ _ List.nodup_nil)

theorem identify_count_eq (app : Application) (vulns : List Vulnerability)
    (n : String) :
    (identify_attack_surfaces app vulns).countP
        (fun s => s.component_name == n)
      = if nameTriggered app n then 1 else 0 := by
  have hmap : (identify_attack_surfaces app vulns).countP
      (fun s => s.component_name == n)
      = (surfaceOrderSpec app).count n := by
    rw [List.count, ← names_identify app vulns, List.countP_map]
    rfl
  rw [hmap]
  by_cases h : nameTriggered app n
  · rw [if_pos h]
    exact List.count_eq_one_of_mem (nodup_surfaceOrderSpec app)
      ((mem_surfaceOrderSpec app n).mpr h)
  · rw [if_neg h]
    exact List.count_eq_zero.mpr
      (fun hn => h ((mem_surfaceOrderSpec app n).mp hn))

/-! ### Claim C4: exactly one surface per triggering component name -/

/-- C4: `identify_attack_surfaces` produces exactly one surface per
component name for which at least one trigger fires (public-zone
service, sensitive service, sensitive database), and no surface for
names triggering zero rules; an application whose components trigger no
rules therefore yields an empty list. -/
theorem c4_one_surface_per_triggering_name (app : Application)
    (vulns : List Vulnerability) (n : String) :
    (identify_attack_surfaces app vulns).countP
        (fun s => s.component_name == n)
      = if nameTriggered app n then 1 else 0 :=
  identify_count_eq app vulns n

/-! ### Claim C7: output ordering of surfaces -/

/-- C7: the surfaces come out in the order in which their defining
component first triggered a rule, iterating all services (in application
order) then all databases (in application order); in particular a
database-only surface never precedes a service-created one. -/
theorem c7_surface_output_order (app : Application)
    (vulns : List Vulnerability) :
    (identify_attack_surfaces app vulns).map (fun s => s.component_name)
      = surfaceOrderSpec app :=
  names_identify app vulns

/-! ### Lemmas: locality of surface updates (toward C5) -/

theorem mem_add_or_update_of_ne (m : List IdentifiedAttackSurface)
    (cname ctype czone txt : String) (S : IdentifiedAttackSurface)
    (hS : S ∈ m) (hne : S.component_name ≠ cname) :
    S ∈ add_or_update_surface m cname ctype czone txt := by
  unfold add_or_update_surface
  by_cases h : cname ∈ m.map (fun s => s.component_name)
  · rw [if_pos h]
    refine List.mem_map.mpr ⟨S, hS, ?_⟩
    rw [if_neg hne]
  · rw [if_neg h]
    exact List.mem_append_left _ hS

theorem mem_scan_services_of_ne :
    ∀ (svs : List Service) (m : List IdentifiedAttackSurface)
    (S : IdentifiedAttackSurface), S ∈ m →
    (∀ sv ∈ svs, sv.name ≠ S.component_name) →
    S ∈ scan_services m svs := by
  intro svs
  induction svs with
  | nil => intro m S hS _; exact hS
  | cons sv rest ih =>
    intro m S hS hne
    rw [scan_services]
    have hsv : sv.name ≠ S.component_name := hne sv (List.mem_cons_self sv rest)
    apply ih _ _ ?_ (fun sv' h' => hne sv' (List.mem_cons_of_mem sv h'))
    by_cases h1 : strLower sv.network_zone.name = "public"
    · by_cases h2 : sv.processes_sensitive_data = true
      · simp only [if_pos h1, if_pos h2]
        exact mem_add_or_update_of_ne _ _ _ _ _ _
          (mem_add_or_update_of_ne _ _ _ _ _ _ hS (Ne.symm hsv)) (Ne.symm hsv)
      · simp only [if_pos h1, if_neg h2]
        exact mem_add_or_update_of_ne _ _ _ _ _ _ hS (Ne.symm hsv)
    · by_cases h2 : sv.processes_sensitive_data = true
      · simp only [if_neg h1, if_pos h2]
        exact mem_add_or_update_of_ne _ _ _ _ _ _ hS (Ne.symm hsv)
      · simp only [if_neg h1, if_neg h2]
        exact hS

theorem mem_scan_databases_of_ne :
    ∀ (dbs : List Database) (m : List IdentifiedAttackSurface)
    (S : IdentifiedAttackSurface), S ∈ m →
    (∀ db ∈ dbs, db.name ≠ S.component_name) →
    S ∈ scan_databases m dbs := by
  intro dbs
  induction dbs with
  | nil => intro m S hS _; exact hS
  | cons db rest ih =>
    intro m S hS hne
    rw [scan_databases]
    have hdb : db.name ≠ S.component_name := hne db (List.mem_cons_self db rest)
    apply ih _ _ ?_ (fun db' h' => hne db' (List.mem_cons_of_mem db h'))
    by_cases h1 : db.stores_sensitive_data = true
    · simp only [if_pos h1]
      exact mem_add_or_update_of_ne _ _ _ _ _ _ hS (Ne.symm hdb)
    · simp only [if_neg h1]
      exact hS

theorem scan_services_append (l1 l2 : List Service) :
    ∀ m, scan_services m (l1 ++ l2) = scan_services (scan_services m l1) l2 := by
  induction l1 with
  | nil => intro m; rfl
  | cons sv rest ih =>
    intro m
    rw [List.cons_append, scan_services, scan_services]
    exact ih _

theorem doubly_triggered_service_surface
    (m : List IdentifiedAttackSurface) (sv : Service) (post : List Service)
    (hpub : strLower sv.network_zone.name = "public")
    (hsens : sv.processes_sensitive_data = true)
    (hnew : sv.name ∉ m.map (fun s => s.component_name))
    (hpost : ∀ sv' ∈ post, sv'.name ≠ sv.name) :
    (⟨sv.name, "Service", sv.network_zone.name,
        "Publicly exposed service; Handles sensitive data", []⟩ :
      IdentifiedAttackSurface) ∈ scan_services m (sv :: post) := by
  rw [scan_services]
  simp only [if_pos hpub, if_pos hsens]
  apply mem_scan_services_of_ne post _ _ _ hpost
  unfold add_or_update_surface
  rw [if_neg hnew]
  have hmem : sv.name ∈
      (m ++ [(⟨sv.name, "Service", sv.network_zone.name,
        "Publicly exposed service", []⟩ : IdentifiedAttackSurface)]).map
        (fun s => s.component_name) := by
    rw [List.map_append]
    exact List.mem_append_right _ (by simp)
  rw [if_pos hmem]
  refine List.mem_map.mpr
    ⟨⟨sv.name, "Service", sv.network_zone.name,
      "Publicly exposed service", []⟩,
      List.mem_append_right _ (by simp), ?_⟩
  dsimp only
  rw [if_pos rfl,
    if_neg (by decide :
      ¬ strIn "Handles sensitive data" "Publicly exposed service" = true)]
  congr 1

/-! ### Claim C5: multi-trigger reason accumulation -/

/-- C5: under the data-model invariant that component names are unique
within the application, a service that is both publicly exposed and
processes sensitive data yields exactly one surface, whose reason is the
semicolon-joined concatenation of the two triggering reason strings in
first-occurrence order, each exactly once. -/
theorem c5_semicolon_joined_reasons (app : Application)
    (vulns : List Vulnerability)
    (hnodup : (allComponentNames app).Nodup)
    (sv : Service) (hsv : sv ∈ app.services)
    (hpub : strLower sv.network_zone.name = "public")
    (hsens : sv.processes_sensitive_data = true) :
    ∃ S ∈ identify_attack_surfaces app vulns,
      S.component_name = sv.name ∧
      S.reason = "Publicly exposed service; Handles sensitive data" ∧
      (identify_attack_surfaces app vulns).countP
        (fun s => s.component_name == sv.name) = 1 := by
  obtain ⟨pre, post, hsplit⟩ := List.append_of_mem hsv
  have hnames : sv.name ∉ pre.map (fun s => s.name) ∧
      (∀ sv' ∈ post, sv'.name ≠ sv.name) ∧
      (∀ db ∈ app.databases, db.name ≠ sv.name) := by
    unfold allComponentNames at hnodup
    rw [hsplit, List.map_append, List.map_cons, List.append_assoc,
      List.cons_append] at hnodup
    have h1 := (List.nodup_append.mp hnodup).2.1
    have hd := (List.nodup_append.mp hnodup).2.2
    rw [List.nodup_cons, List.mem_append] at h1
    refine ⟨?_, ?_, ?_⟩
    · intro hmem
      exact hd hmem (List.mem_cons_self _ _)
    · intro sv' hsv' heq
      exact h1.1 (Or.inl (heq ▸ List.mem_map_of_mem (fun s => s.name) hsv'))
    · intro db hdb heq
      exact h1.1 (Or.inr (heq ▸ List.mem_map_of_mem (fun s => s.name) hdb))
  obtain ⟨hpre, hpost, hdb⟩ := hnames
  have hnew : sv.name ∉
      (scan_services [] pre).map (fun s => s.component_name) := by
    rw [names_scan_services]
    intro hmem
    rcases (mem_svcFold pre [] sv.name).mp hmem with h | ⟨sv', hsv', heq, -⟩
    · cases h
    · exact hpre (heq ▸ List.mem_map_of_mem (fun s => s.name) hsv')
  have hstep := doubly_triggered_service_surface (scan_services [] pre)
    sv post hpub hsens hnew hpost
  have hsurf : (⟨sv.name, "Service", sv.network_zone.name,
      "Publicly exposed service; Handles sensitive data", []⟩ :
      IdentifiedAttackSurface) ∈ surface_scan app := by
    unfold surface_scan
    rw [hsplit, scan_services_append]
    exact mem_scan_databases_of_ne app.databases _ _ hstep hdb
  refine ⟨⟨sv.name, "Service", sv.network_zone.name,
      "Publicly exposed service; Handles sensitive data",
      (scan_vulns sv.name "Service" [] vulns)⟩, ?_, rfl, rfl, ?_⟩
  · unfold identify_attack_surfaces
    exact List.mem_map.mpr ⟨_, hsurf, rfl⟩
  · rw [identify_count_eq]
    have ht : nameTriggered app sv.name := by
      unfold nameTriggered serviceTriggers
      exact Or.inl ⟨sv, hsv, rfl, Or.inl hpub⟩
    rw [if_pos ht]

/-- Witness for C5 at a concrete input: the `Web` service of `exApp` is
public and processes sensitive data. -/
theorem c5_semicolon_joined_reasons_witness :
    ([svWeb].map (fun s => s.name) ++
      ([] : List Database).map (fun d => d.name)).Nodup ∧
    svWeb ∈ exApp.services ∧
    strLower svWeb.network_zone.name = "public" ∧
    svWeb.processes_sensitive_data = true ∧
    (∃ S ∈ identify_attack_surfaces exApp [vGeneric],
      S.component_name = svWeb.name ∧
      S.reason = "Publicly exposed service; Handles sensitive data" ∧
      (identify_attack_surfaces exApp [vGeneric]).countP
        (fun s => s.component_name == svWeb.name) = 1) :=
  ⟨by decide, by decide, by decide, by decide,
    c5_semicolon_joined_reasons exApp [vGeneric] (by decide) svWeb
      (by decide) (by decide) (by decide)⟩

/-! ### Lemmas about the control-recommendation loops -/

theorem scan_controls_shape (s : IdentifiedAttackSurface) (v : Vulnerability) :
    ∀ (cs : List SecurityControl) (added : List SuggKey)
    (sc : SuggestedControl), sc ∈ (scan_controls s v cs added).1 →
    sc.applies_to_surface = s ∧ sc.control ∈ cs ∧
      controlMatch s.component_name v sc.control
        = some sc.reason_for_suggestion := by
  intro cs
  induction cs with
  | nil => intro added sc hsc; cases hsc
  | cons c cs ih =>
    intro added sc hsc
    rw [scan_controls] at hsc
    by_cases hk : (c.name, s.component_name) ∈ added
    · rw [if_pos hk] at hsc
      obtain ⟨h1, h2, h3⟩ := ih added sc hsc
      exact ⟨h1, List.mem_cons_of_mem c h2, h3⟩
    · rw [if_neg hk] at hsc
      cases hm : controlMatch s.component_name v c with
      | some r =>
        simp only [hm] at hsc
        rcases List.mem_cons.mp hsc with rfl | hsc'
        · exact ⟨rfl, List.mem_cons_self c cs, hm⟩
        · obtain ⟨h1, h2, h3⟩ := ih _ sc hsc'
          exact ⟨h1, List.mem_cons_of_mem c h2, h3⟩
      | none =>
        simp only [hm] at hsc
        obtain ⟨h1, h2, h3⟩ := ih added sc hsc
        exact ⟨h1, List.mem_cons_of_mem c h2, h3⟩

theorem scan_controls_keys (s : IdentifiedAttackSurface) (v : Vulnerability) :
    ∀ (cs : List SecurityControl) (added : List SuggKey) (k : SuggKey),
    k ∈ (scan_controls s v cs added).2 ↔
      k ∈ added ∨ ∃ sc ∈ (scan_controls s v cs added).1, keyOf sc = k := by
  intro cs
  induction cs with
  | nil => intro added k; simp [scan_controls]
  | cons c cs ih =>
    intro added k
    rw [scan_controls]
    by_cases hk : (c.name, s.component_name) ∈ added
    · rw [if_pos hk]
      exact ih added k
    · rw [if_neg hk]
      cases hm : controlMatch s.component_name v c with
      | some r =>
        simp only [hm]
        rw [ih ((c.name, s.component_name) :: added) k]
        simp only [List.mem_cons]
        have hkey : keyOf ⟨c, r, s⟩ = (c.name, s.component_name) := rfl
        constructor
        · rintro ((rfl | hin) | ⟨sc, hsc, rfl⟩)
          · exact Or.inr ⟨⟨c, r, s⟩, Or.inl rfl, hkey⟩
          · exact Or.inl hin
          · exact Or.inr ⟨sc, Or.inr hsc, rfl⟩
        · rintro (hin | ⟨sc, rfl | hsc, rfl⟩)
          · exact Or.inl (Or.inr hin)
          · exact Or.inl (Or.inl hkey.symm)
          · exact Or.inr ⟨sc, hsc, rfl⟩
      | none =>
        simp only [hm]
        exact ih added k

theorem scan_controls_fresh (s : IdentifiedAttackSurface) (v : Vulnerability) :
    ∀ (cs : List SecurityControl) (added : List SuggKey)
    (sc : SuggestedControl), sc ∈ (scan_controls s v cs added).1 →
    keyOf sc ∉ added := by
  intro cs
  induction cs with
  | nil => intro added sc hsc; cases hsc
  | cons c cs ih =>
    intro added sc hsc
    rw [scan_controls] at hsc
    by_cases hk : (c.name, s.component_name) ∈ added
    · rw [if_pos hk] at hsc
      exact ih added sc hsc
    · rw [if_neg hk] at hsc
      cases hm : controlMatch s.component_name v c with
      | some r =>
        simp only [hm] at hsc
        rcases List.mem_cons.mp hsc with rfl | hsc'
        · exact hk
        · intro hin
          exact ih _ sc hsc' (List.mem_cons_of_mem _ hin)
      | none =>
        simp only [hm] at hsc
        exact ih added sc hsc

theorem scan_controls_nodup_keys (s : IdentifiedAttackSurface)
    (v : Vulnerability) :
    ∀ (cs : List SecurityControl) (added : List SuggKey),
    ((scan_controls s v cs added).1.map keyOf).Nodup := by
  intro cs
  induction cs with
  | nil => intro added; simp [scan_controls]
  | cons c cs ih =>
    intro added
    rw [scan_controls]
    by_cases hk : (c.name, s.component_name) ∈ added
    · rw [if_pos hk]
      exact ih added
    · rw [if_neg hk]
      cases hm : controlMatch s.component_name v c with
      | some r =>
        simp only [hm]
        rw [List.map_cons, List.nodup_cons]
        refine ⟨?_, ih _⟩
        intro hmem
        obtain ⟨sc, hsc, hkey⟩ := List.mem_map.mp hmem
        have := scan_controls_fresh s v cs
          ((c.name, s.component_name) :: added) sc hsc
        rw [hkey] at this
        exact this (List.mem_cons_self _ _)
      | none =>
        simp only [hm]
        exact ih added

theorem scan_surface_vulns_shape (s : IdentifiedAttackSurface)
    (controls : List SecurityControl) :
    ∀ (vs : List Vulnerability) (added : List SuggKey)
    (sc : SuggestedControl),
    sc ∈ (scan_surface_vulns s controls vs added).1 →
    sc.applies_to_surface = s ∧ sc.control ∈ controls ∧
      ∃ w ∈ vs, controlMatch s.component_name w sc.control
        = some sc.reason_for_suggestion := by
  intro vs
  induction vs with
  | nil => intro added sc hsc; cases hsc
  | cons v vs ih =>
    intro added sc hsc
    rw [scan_surface_vulns] at hsc
    rcases List.mem_append.mp hsc with h1 | h2
    · obtain ⟨ha, hb, hc⟩ := scan_controls_shape s v controls added sc h1
      exact ⟨ha, hb, v, List.mem_cons_self v vs, hc⟩
    · obtain ⟨ha, hb, w, hw, hc⟩ := ih _ sc h2
      exact ⟨ha, hb, w, List.mem_cons_of_mem v hw, hc⟩

theorem scan_surface_vulns_keys (s : IdentifiedAttackSurface)
    (controls : List SecurityControl) :
    ∀ (vs : List Vulnerability) (added : List SuggKey) (k : SuggKey),
    k ∈ (scan_surface_vulns s controls vs added).2 ↔
      k ∈ added ∨
        ∃ sc ∈ (scan_surface_vulns s controls vs added).1, keyOf sc = k := by
  intro vs
  induction vs with
  | nil => intro added k; simp [scan_surface_vulns]
  | cons v vs ih =>
    intro added k
    rw [scan_surface_vulns]
    rw [ih, scan_controls_keys]
    simp only [List.mem_append]
    constructor
    · rintro ((hin | ⟨sc, hsc, rfl⟩) | ⟨sc, hsc, rfl⟩)
      · exact Or.inl hin
      · exact Or.inr ⟨sc, Or.inl hsc, rfl⟩
      · exact Or.inr ⟨sc, Or.inr hsc, rfl⟩
    · rintro (hin | ⟨sc, hsc | hsc, rfl⟩)
      · exact Or.inl (Or.inl hin)
      · exact Or.inl (Or.inr ⟨sc, hsc, rfl⟩)
      · exact Or.inr ⟨sc, hsc, rfl⟩

theorem scan_surface_vulns_fresh (s : IdentifiedAttackSurface)
    (controls : List SecurityControl) :
    ∀ (vs : List Vulnerability) (added : List SuggKey)
    (sc : SuggestedControl),
    sc ∈ (scan_surface_vulns s controls vs added).1 →
    keyOf sc ∉ added := by
  intro vs
  induction vs with
  | nil => intro added sc hsc; cases hsc
  | cons v vs ih =>
    intro added sc hsc
    rw [scan_surface_vulns] at hsc
    rcases List.mem_append.mp hsc with h1 | h2
    · exact scan_controls_fresh s v controls added sc h1
    · intro hin
      refine ih _ sc h2 ?_
      rw [scan_controls_keys]
      exact Or.inl hin

theorem scan_surface_vulns_nodup_keys (s : IdentifiedAttackSurface)
    (controls : List SecurityControl) :
    ∀ (vs : List Vulnerability) (added : List SuggKey),
    ((scan_surface_vulns s controls vs added).1.map keyOf).Nodup := by
  intro vs
  induction vs with
  | nil => intro added; simp [scan_surface_vulns]
  | cons v vs ih =>
    intro added
    rw [scan_surface_vulns]
    rw [List.map_append, List.nodup_append]
    refine ⟨scan_controls_nodup_keys s v controls added, ih _, ?_⟩
    intro k hk1 hk2
    obtain ⟨sc1, hsc1, rfl⟩ := List.mem_map.mp hk1
    obtain ⟨sc2, hsc2, hkeq⟩ := List.mem_map.mp hk2
    refine scan_surface_vulns_fresh s controls vs _ sc2 hsc2 ?_
    rw [hkeq, scan_controls_keys]
    exact Or.inr ⟨sc1, hsc1, rfl⟩

theorem scan_surfaces_shape (controls : List SecurityControl) :
    ∀ (ss : List IdentifiedAttackSurface) (added : List SuggKey)
    (sc : SuggestedControl), sc ∈ (scan_surfaces controls ss added).1 →
    sc.applies_to_surface ∈ ss ∧ sc.control ∈ controls ∧
      ∃ w ∈ sc.applies_to_surface.potential_vulnerabilities,
        controlMatch sc.applies_to_surface.component_name w sc.control
          = some sc.reason_for_suggestion := by
  intro ss
  induction ss with
  | nil => intro added sc hsc; cases hsc
  | cons s ss ih =>
    intro added sc hsc
    rw [scan_surfaces] at hsc
    rcases List.mem_append.mp hsc with h1 | h2
    · obtain ⟨ha, hb, w, hw, hc⟩ :=
        scan_surface_vulns_shape s controls s.potential_vulnerabilities
          added sc h1
      subst ha
      exact ⟨List.mem_cons_self _ _, hb, w, hw, hc⟩
    · obtain ⟨ha, hb, hc⟩ := ih _ sc h2
      exact ⟨List.mem_cons_of_mem s ha, hb, hc⟩

theorem scan_surfaces_keys (controls : List SecurityControl) :
    ∀ (ss : List IdentifiedAttackSurface) (added : List SuggKey)
    (k : SuggKey),
    k ∈ (scan_surfaces controls ss added).2 ↔
      k ∈ added ∨ ∃ sc ∈ (scan_surfaces controls ss added).1, keyOf sc = k := by
  intro ss
  induction ss with
  | nil => intro added k; simp [scan_surfaces]
  | cons s ss ih =>
    intro added k
    rw [scan_surfaces]
    rw [ih, scan_surface_vulns_keys]
    simp only [List.mem_append]
    constructor
    · rintro ((hin | ⟨sc, hsc, rfl⟩) | ⟨sc, hsc, rfl⟩)
      · exact Or.inl hin
      · exact Or.inr ⟨sc, Or.inl hsc, rfl⟩
      · exact Or.inr ⟨sc, Or.inr hsc, rfl⟩
    · rintro (hin | ⟨sc, hsc | hsc, rfl⟩)
      · exact Or.inl (Or.inl hin)
      · exact Or.inl (Or.inr ⟨sc, hsc, rfl⟩)
      · exact Or.inr ⟨sc, hsc, rfl⟩

theorem scan_surfaces_fresh (controls : List SecurityControl) :
    ∀ (ss : List IdentifiedAttackSurface) (added : List SuggKey)
    (sc : SuggestedControl), sc ∈ (scan_surfaces controls ss added).1 →
    keyOf sc ∉ added := by
  intro ss
  induction ss with
  | nil => intro added sc hsc; cases hsc
  | cons s ss ih =>
    intro added sc hsc
    rw [scan_surfaces] at hsc
    rcases List.mem_append.mp hsc with h1 | h2
    · exact scan_surface_vulns_fresh s controls
        s.potential_vulnerabilities added sc h1
    · intro hin
      refine ih _ sc h2 ?_
      rw [scan_surface_vulns_keys]
      exact Or.inl hin

theorem scan_surfaces_nodup_keys (controls : List SecurityControl) :
    ∀ (ss : List IdentifiedAttackSurface) (added : List SuggKey),
    ((scan_surfaces controls ss added).1.map keyOf).Nodup := by
  intro ss
  induction ss with
  | nil => intro added; simp [scan_surfaces]
  | cons s ss ih =>
    intro added
    rw [scan_surfaces]
    rw [List.map_append, List.nodup_append]
    refine ⟨scan_surface_vulns_nodup_keys s controls _ added, ih _, ?_⟩
    intro k hk1 hk2
    obtain ⟨sc1, hsc1, rfl⟩ := List.mem_map.mp hk1
    obtain ⟨sc2, hsc2, hkeq⟩ := List.mem_map.mp hk2
    refine scan_surfaces_fresh controls ss _ sc2 hsc2 ?_
    rw [hkeq, scan_surface_vulns_keys]
    exact Or.inr ⟨sc1, hsc1, rfl⟩

theorem suggest_nodup_keys (surfaces : List IdentifiedAttackSurface)
    (controls : List SecurityControl) :
    ((suggest_security_controls surfaces controls).map keyOf).Nodup :=
  scan_surfaces_nodup_keys controls surfaces []

/-! ### Claim C2: one suggestion per (control name, surface name) -/

/-- A predicate whose holders all share one key value holds at most once
on a list with pairwise-distinct keys. -/
theorem countP_le_one_of_nodup_map {α β : Type} (f : α → β) (p : α → Bool) :
    ∀ l : List α, (l.map f).Nodup →
    (∀ a ∈ l, p a = true → ∀ b ∈ l, p b = true → f a = f b) →
    l.countP p ≤ 1 := by
  intro l
  induction l with
  | nil => intro _ _; simp
  | cons a l ih =>
    intro hnodup hp
    rw [List.map_cons, List.nodup_cons] at hnodup
    rw [List.countP_cons]
    by_cases ha : p a = true
    · have hzero : l.countP p = 0 := by
        rw [List.countP_eq_zero]
        intro b hb hpb
        have hfb : f b = f a := hp b (List.mem_cons_of_mem a hb) hpb a
          (List.mem_cons_self a l) ha
        exact hnodup.1 (hfb ▸ List.mem_map_of_mem f hb)
      simp [hzero, ha]
    · have hpa : (if p a then 1 else 0) = 0 := by simp [ha]
      rw [hpa, Nat.add_zero]
      exact ih hnodup.2 (fun b hb hpb b' hb' hpb' =>
        hp b (List.mem_cons_of_mem a hb) hpb b'
          (List.mem_cons_of_mem a hb') hpb')

/-- C2: for every input, the output of `suggest_security_controls`
contains at most one `SuggestedControl` whose control carries a given
name and whose surface carries a given component name, however many
vulnerabilities of that surface the control could match. -/
theorem c2_dedup_control_surface_pairs
    (surfaces : List IdentifiedAttackSurface)
    (controls : List SecurityControl) (n m : String) :
    (suggest_security_controls surfaces controls).countP
      (fun sc => sc.control.name == n &&
        sc.applies_to_surface.component_name == m) ≤ 1 := by
  refine countP_le_one_of_nodup_map keyOf _ _
    (suggest_nodup_keys surfaces controls) ?_
  intro a _ hpa b _ hpb
  rw [Bool.and_eq_true, beq_iff_eq, beq_iff_eq] at hpa hpb
  unfold keyOf
  rw [hpa.1, hpa.2, hpb.1, hpb.2]

/-! ### Emission lemmas for the control recommender -/

theorem scan_controls_emit (s : IdentifiedAttackSurface) (v : Vulnerability)
    (c : SecurityControl) (r : String)
    (hm : controlMatch s.component_name v c = some r) :
    ∀ (cpre crest : List SecurityControl) (added : List SuggKey),
    (c.name, s.component_name) ∉ added →
    (∀ c' ∈ cpre, c'.name = c.name →
      controlMatch s.component_name v c' = none) →
    (⟨c, r, s⟩ : SuggestedControl)
      ∈ (scan_controls s v (cpre ++ c :: crest) added).1 := by
  intro cpre
  induction cpre with
  | nil =>
    intro crest added hk _
    rw [List.nil_append, scan_controls, if_neg hk]
    simp only [hm]
    exact List.mem_cons_self _ _
  | cons c0 cpre ih =>
    intro crest added hk hpre
    rw [List.cons_append, scan_controls]
    by_cases hk0 : (c0.name, s.component_name) ∈ added
    · rw [if_pos hk0]
      exact ih crest added hk
        (fun c' h' => hpre c' (List.mem_cons_of_mem c0 h'))
    · rw [if_neg hk0]
      cases hm0 : controlMatch s.component_name v c0 with
      | some r0 =>
        have hne : c0.name ≠ c.name := by
          intro heq
          rw [hpre c0 (List.mem_cons_self _ _) heq] at hm0
          cases hm0
        simp only [hm0]
        refine List.mem_cons_of_mem _ ?_
        refine ih crest _ ?_
          (fun c' h' => hpre c' (List.mem_cons_of_mem c0 h'))
        intro hin
        rcases List.mem_cons.mp hin with heq | hin'
        · exact hne (congrArg Prod.fst heq).symm
        · exact hk hin'
      | none =>
        simp only [hm0]
        exact ih crest added hk
          (fun c' h' => hpre c' (List.mem_cons_of_mem c0 h'))

theorem scan_surface_vulns_emit (s : IdentifiedAttackSurface)
    (controls : List SecurityControl) (v : Vulnerability)
    (c : SecurityControl) (r : String)
    (hm : controlMatch s.component_name v c = some r)
    (cpre crest : List SecurityControl)
    (hcs : controls = cpre ++ c :: crest)
    (hcpre : ∀ c' ∈ cpre, c'.name = c.name →
      controlMatch s.component_name v c' = none) :
    ∀ (ws vrest : List Vulnerability) (added : List SuggKey),
    (c.name, s.component_name) ∉ added →
    (∀ w ∈ ws, ∀ c' ∈ controls, c'.name = c.name →
      controlMatch s.component_name w c' = none) →
    (⟨c, r, s⟩ : SuggestedControl)
      ∈ (scan_surface_vulns s controls (ws ++ v :: vrest) added).1 := by
  intro ws
  induction ws with
  | nil =>
    intro vrest added hk _
    rw [List.nil_append, scan_surface_vulns]
    refine List.mem_append_left _ ?_
    rw [hcs]
    exact scan_controls_emit s v c r hm cpre crest added hk hcpre
  | cons w ws ih =>
    intro vrest added hk hws
    rw [List.cons_append, scan_surface_vulns]
    refine List.mem_append_right _ ?_
    refine ih vrest _ ?_
      (fun w' h' => hws w' (List.mem_cons_of_mem w h'))
    intro hin
    rcases (scan_controls_keys s w controls added _).mp hin with
      hin' | ⟨sc, hsc, hkey⟩
    · exact hk hin'
    · obtain ⟨-, hcmem, hmatch⟩ := scan_controls_shape s w controls added sc hsc
      have hname : sc.control.name = c.name := congrArg Prod.fst hkey
      rw [hws w (List.mem_cons_self _ _) sc.control hcmem hname] at hmatch
      cases hmatch

theorem scan_surfaces_emit (controls : List SecurityControl)
    (s : IdentifiedAttackSurface) (v : Vulnerability)
    (c : SecurityControl) (r : String)
    (hm : controlMatch s.component_name v c = some r)
    (cpre crest : List SecurityControl)
    (hcs : controls = cpre ++ c :: crest)
    (hcpre : ∀ c' ∈ cpre, c'.name = c.name →
      controlMatch s.component_name v c' = none)
    (ws vrest : List Vulnerability)
    (hvs : s.potential_vulnerabilities = ws ++ v :: vrest)
    (hws : ∀ w ∈ ws, ∀ c' ∈ controls, c'.name = c.name →
      controlMatch s.component_name w c' = none) :
    ∀ (spre srest : List IdentifiedAttackSurface) (added : List SuggKey),
    (c.name, s.component_name) ∉ added →
    (∀ s' ∈ spre, s'.component_name ≠ s.component_name) →
    (⟨c, r, s⟩ : SuggestedControl)
      ∈ (scan_surfaces controls (spre ++ s :: srest) added).1 := by
  intro spre
  induction spre with
  | nil =>
    intro srest added hk _
    rw [List.nil_append, scan_surfaces]
    refine List.mem_append_left _ ?_
    rw [hvs]
    exact scan_surface_vulns_emit s controls v c r hm cpre crest hcs hcpre
      ws vrest added hk hws
  | cons s0 spre ih =>
    intro srest added hk hspre
    rw [List.cons_append, scan_surfaces]
    refine List.mem_append_right _ ?_
    refine ih srest _ ?_
      (fun s' h' => hspre s' (List.mem_cons_of_mem s0 h'))
    intro hin
    rcases (scan_surface_vulns_keys s0 controls _ added _).mp hin with
      hin' | ⟨sc, hsc, hkey⟩
    · exact hk hin'
    · obtain ⟨happ, -, -⟩ :=
        scan_surface_vulns_shape s0 controls _ added sc hsc
      have hsnd : sc.applies_to_surface.component_name = s.component_name :=
        congrArg Prod.snd hkey
      rw [happ] at hsnd
      exact hspre s0 (List.mem_cons_self _ _) hsnd

/-! ### Claim C1: primary-rule precedence -/

set_option maxRecDepth 8000 in
/-- C1 is false as stated: when an earlier vulnerability on the same
surface already matched the control (here only through the secondary
attack-vector rule), the dedup key suppresses the later evaluation at
which the primary rule would have fired, so the emitted suggestion for
the (control, surface) pair carries the secondary wording about the
earlier vulnerability — here `vBoth` satisfies both primary and
secondary conditions for `cBoth`, is attached to the surface, and yet no
suggestion carries the primary wording naming it. -/
theorem c1_counterexample :
    vBoth ∈ sTwoVulns.potential_vulnerabilities ∧
    vBoth.name ∈ cBoth.related_vulnerabilities ∧
    vBoth.attack_vector ∈ cBoth.mitigates ∧
    suggest_security_controls [sTwoVulns] [cBoth] =
      [⟨cBoth, secondaryReason vFirst cBoth sTwoVulns.component_name,
        sTwoVulns⟩] ∧
    ∀ sc ∈ suggest_security_controls [sTwoVulns] [cBoth],
      sc.reason_for_suggestion ≠
        primaryReason vBoth cBoth sTwoVulns.component_name := by
  decide

/-- C1 (amended): if vulnerability `V` is the first vulnerability of
surface `S` that control `C` matches at all (earlier vulnerabilities
match no control sharing `C`'s name, no earlier same-named control
matches `V`, and no earlier surface shares `S`'s component name), and
`V`'s name or non-empty CVE id is in `C.related_vulnerabilities` while
`V`'s attack vector is also in `C.mitigates`, then the suggestion
emitted for `(C, S)` carries the primary-rule wording naming `V`, not
the secondary attack-vector wording, and it is the only suggestion for
that (control name, component name) pair. -/
theorem c1_primary_precedence_amended
    (surfaces : List IdentifiedAttackSurface)
    (controls : List SecurityControl)
    (s : IdentifiedAttackSurface) (v : Vulnerability) (c : SecurityControl)
    (spre srest : List IdentifiedAttackSurface)
    (hsplit : surfaces = spre ++ s :: srest)
    (hspre : ∀ s' ∈ spre, s'.component_name ≠ s.component_name)
    (ws vrest : List Vulnerability)
    (hvs : s.potential_vulnerabilities = ws ++ v :: vrest)
    (hws : ∀ w ∈ ws, ∀ c' ∈ controls, c'.name = c.name →
      controlMatch s.component_name w c' = none)
    (cpre crest : List SecurityControl)
    (hcs : controls = cpre ++ c :: crest)
    (hcpre : ∀ c' ∈ cpre, c'.name = c.name →
      controlMatch s.component_name v c' = none)
    (hprimary : v.name ∈ c.related_vulnerabilities ∨
      (v.cve_id ≠ "" ∧ v.cve_id ∈ c.related_vulnerabilities))
    (_hsecondary : v.attack_vector ∈ c.mitigates) :
    (⟨c, primaryReason v c s.component_name, s⟩ : SuggestedControl)
      ∈ suggest_security_controls surfaces controls ∧
    ∀ sc ∈ suggest_security_controls surfaces controls,
      sc.control.name = c.name →
      sc.applies_to_surface.component_name = s.component_name →
      sc = ⟨c, primaryReason v c s.component_name, s⟩ := by
  have hm : controlMatch s.component_name v c
      = some (primaryReason v c s.component_name) := by
    unfold controlMatch
    have hrel : c.related_vulnerabilities ≠ [] := by
      rcases hprimary with h | ⟨-, h⟩ <;> exact List.ne_nil_of_mem h
    rw [if_pos ⟨hrel, hprimary⟩]
  have hmem : (⟨c, primaryReason v c s.component_name, s⟩ :
      SuggestedControl) ∈ suggest_security_controls surfaces controls := by
    unfold suggest_security_controls
    rw [hsplit]
    exact scan_surfaces_emit controls s v c _ hm cpre crest hcs hcpre
      ws vrest hvs hws spre srest [] (List.not_mem_nil _) hspre
  refine ⟨hmem, ?_⟩
  intro sc hsc hnamec hnames
  have hkey : keyOf sc
      = keyOf ⟨c, primaryReason v c s.component_name, s⟩ := by
    unfold keyOf
    rw [hnamec, hnames]
  exact List.inj_on_of_nodup_map (suggest_nodup_keys surfaces controls)
    hsc hmem hkey

/-- Witness for the amended C1 at a concrete input: `vBoth` is the only
vulnerability of `sOneVuln`, so the primary wording is emitted. -/
theorem c1_primary_precedence_amended_witness :
    (vBoth.name ∈ cBoth.related_vulnerabilities ∨
      (vBoth.cve_id ≠ "" ∧ vBoth.cve_id ∈ cBoth.related_vulnerabilities)) ∧
    vBoth.attack_vector ∈ cBoth.mitigates ∧
    ((⟨cBoth, primaryReason vBoth cBoth sOneVuln.component_name,
        sOneVuln⟩ : SuggestedControl)
      ∈ suggest_security_controls [sOneVuln] [cBoth] ∧
    ∀ sc ∈ suggest_security_controls [sOneVuln] [cBoth],
      sc.control.name = cBoth.name →
      sc.applies_to_surface.component_name = sOneVuln.component_name →
      sc = ⟨cBoth, primaryReason vBoth cBoth sOneVuln.component_name,
        sOneVuln⟩) :=
  ⟨by decide, by decide,
    c1_primary_precedence_amended [sOneVuln] [cBoth] sOneVuln vBoth cBoth
      [] [] rfl (fun s' h' => absurd h' (List.not_mem_nil s'))
      [] [] rfl (fun w h' => absurd h' (List.not_mem_nil w))
      [] [] rfl (fun c' h' => absurd h' (List.not_mem_nil c'))
      (by decide) (by decide)⟩

/-! ### Claim C10: dedup is by names, not by surface identity -/

/-- C10: `suggest_security_controls` deduplicates by the name pair
(control name, surface component name), not by surface object identity:
over two distinct surface records sharing a component name, a control
suggested for the earlier surface is suppressed for the later one, and
at most one suggestion with that control name is emitted across both. -/
theorem c10_dedup_by_names_not_identity
    (s1 s2 : IdentifiedAttackSurface) (controls : List SecurityControl)
    (n : String) (hname : s1.component_name = s2.component_name)
    (_hne : s1 ≠ s2) :
    ((∃ sc ∈ suggest_security_controls [s1, s2] controls,
        sc.control.name = n ∧ sc.applies_to_surface = s1) →
      ∀ sc ∈ suggest_security_controls [s1, s2] controls,
        sc.control.name = n → sc.applies_to_surface = s1) ∧
    (suggest_security_controls [s1, s2] controls).countP
      (fun sc => sc.control.name == n) ≤ 1 := by
  have hnodup := suggest_nodup_keys [s1, s2] controls
  have hmemsurf : ∀ sc ∈ suggest_security_controls [s1, s2] controls,
      sc.applies_to_surface.component_name = s1.component_name := by
    intro sc hsc
    have h := (scan_surfaces_shape controls [s1, s2] [] sc hsc).1
    rcases List.mem_cons.mp h with h | h
    · rw [h]
    · rcases List.mem_cons.mp h with h | h
      · rw [h, ← hname]
      · cases h
  constructor
  · rintro ⟨sc0, hsc0, hn0, happ0⟩ sc hsc hn
    have hkey : keyOf sc = keyOf sc0 := by
      unfold keyOf
      rw [hn, hn0, hmemsurf sc hsc, hmemsurf sc0 hsc0]
    have heq := List.inj_on_of_nodup_map hnodup hsc hsc0 hkey
    rw [heq, happ0]
  · refine countP_le_one_of_nodup_map keyOf _ _ hnodup ?_
    intro a ha hpa b hb hpb
    rw [beq_iff_eq] at hpa hpb
    unfold keyOf
    rw [hpa, hpb, hmemsurf a ha, hmemsurf b hb]

/-- Witness for C10 at a concrete input: two distinct records named
`Web`. -/
theorem c10_dedup_by_names_not_identity_witness :
    sTwoVulns.component_name = sSameName.component_name ∧
    sTwoVulns ≠ sSameName ∧
    (((∃ sc ∈ suggest_security_controls [sTwoVulns, sSameName] [cBoth],
        sc.control.name = "CSP" ∧ sc.applies_to_surface = sTwoVulns) →
      ∀ sc ∈ suggest_security_controls [sTwoVulns, sSameName] [cBoth],
        sc.control.name = "CSP" → sc.applies_to_surface = sTwoVulns) ∧
    (suggest_security_controls [sTwoVulns, sSameName] [cBoth]).countP
      (fun sc => sc.control.name == "CSP") ≤ 1) :=
  ⟨by decide, by decide,
    c10_dedup_by_names_not_identity sTwoVulns sSameName [cBoth] "CSP"
      (by decide) (by decide)⟩

/-! ### Claim C8: behavior on unresolved attack-vector references -/

set_option maxRecDepth 8000 in
/-- C8 asks for fail-fast on an unresolved `attack_vector` reference; the
code instead completes normally on such data: when the unresolved
vulnerability's affected-components clause matches (here: empty list),
`identify_attack_surfaces` attaches it silently and returns without
raising, and `suggest_security_controls` never raises at all (Python's
`None in control.mitigates` is simply false), returning a degraded empty
suggestion list instead of an error. -/
theorem c8_engine_does_not_fail_fast :
    identify_attack_surfacesRT exApp [vUnresolved]
      = Except.ok [exSurfaceWebRT] ∧
    suggest_security_controlsRT [exSurfaceWebRT] [cBoth] = [] :=
  ⟨rfl, rfl⟩

/-! ### Claim C9: the engine never mutates its inputs -/

theorem heapInv_add_or_update (h0 h : SurfHeap) (m : List (String × Nat))
    (cname ctype czone txt : String) (hinv : HeapInv h0 (h, m)) :
    HeapInv h0 (add_or_update_surfaceH h m cname ctype czone txt) := by
  obtain ⟨hlen, hget, hrefs⟩ := hinv
  unfold add_or_update_surfaceH
  cases hf : m.find? (fun p => p.1 == cname) with
  | some p =>
    have hp := List.mem_of_find?_eq_some hf
    obtain ⟨hp1, hp2⟩ := hrefs p hp
    dsimp only
    by_cases hs : strIn txt (hGet h p.2).reason = true
    · rw [if_pos hs]
      exact ⟨hlen, hget, hrefs⟩
    · rw [if_neg hs]
      refine ⟨?_, ?_, ?_⟩
      · unfold hSet; rw [List.length_set]; exact hlen
      · intro i hi
        unfold hSet
        rw [List.getElem?_set_ne (Nat.ne_of_gt (Nat.lt_of_lt_of_le hi hp1))]
        exact hget i hi
      · intro q hq
        unfold hSet
        rw [List.length_set]
        exact hrefs q hq
  | none =>
    dsimp only
    refine ⟨?_, ?_, ?_⟩
    · rw [List.length_append]
      exact Nat.le_trans hlen (Nat.le_add_right _ _)
    · intro i hi
      rw [List.getElem?_append_left (Nat.lt_of_lt_of_le hi hlen)]
      exact hget i hi
    · intro q hq
      rcases List.mem_append.mp hq with hq | hq
      · obtain ⟨h1, h2⟩ := hrefs q hq
        refine ⟨h1, ?_⟩
        rw [List.length_append]
        exact Nat.lt_of_lt_of_le h2 (Nat.le_add_right _ _)
      · rw [List.mem_singleton] at hq
        subst hq
        refine ⟨hlen, ?_⟩
        rw [List.length_append, List.length_singleton]
        exact Nat.lt_succ_self _

theorem heapInv_scan_servicesH (h0 : SurfHeap) :
    ∀ (svs : List Service) (hm : SurfHeap × List (String × Nat)),
    HeapInv h0 hm → HeapInv h0 (scan_servicesH hm svs) := by
  intro svs
  induction svs with
  | nil => intro hm hinv; exact hinv
  | cons sv rest ih =>
    intro hm hinv
    rw [scan_servicesH]
    apply ih
    by_cases h1 : strLower sv.network_zone.name = "public"
    · by_cases h2 : sv.processes_sensitive_data = true
      · simp only [if_pos h1, if_pos h2]
        exact heapInv_add_or_update h0 _ _ _ _ _ _
          (heapInv_add_or_update h0 _ _ _ _ _ _ hinv)
      · simp only [if_pos h1, if_neg h2]
        exact heapInv_add_or_update h0 _ _ _ _ _ _ hinv
    · by_cases h2 : sv.processes_sensitive_data = true
      · simp only [if_neg h1, if_pos h2]
        exact heapInv_add_or_update h0 _ _ _ _ _ _ hinv
      · simp only [if_neg h1, if_neg h2]
        exact hinv

theorem heapInv_scan_databasesH (h0 : SurfHeap) :
    ∀ (dbs : List Database) (hm : SurfHeap × List (String × Nat)),
    HeapInv h0 hm → HeapInv h0 (scan_databasesH hm dbs) := by
  intro dbs
  induction dbs with
  | nil => intro hm hinv; exact hinv
  | cons db rest ih =>
    intro hm hinv
    rw [scan_databasesH]
    apply ih
    by_cases h1 : db.stores_sensitive_data = true
    · simp only [if_pos h1]
      exact heapInv_add_or_update h0 _ _ _ _ _ _ hinv
    · simp only [if_neg h1]
      exact hinv

theorem attach_phaseH_frame (h0 : SurfHeap) (known : List Vulnerability) :
    ∀ (ps : List (String × Nat)) (h : SurfHeap),
    (∀ p ∈ ps, h0.length ≤ p.2) →
    (∀ i, i < h0.length → h[i]? = h0[i]?) →
    ∀ i, i < h0.length → (attach_phaseH known h ps)[i]? = h0[i]? := by
  intro ps
  induction ps with
  | nil => intro h _ hget i hi; exact hget i hi
  | cons p ps ih =>
    intro h hrefs hget i hi
    rw [attach_phaseH]
    refine ih _ (fun q hq => hrefs q (List.mem_cons_of_mem p hq)) ?_ i hi
    intro j hj
    unfold hSet
    rw [List.getElem?_set_ne (Nat.ne_of_gt (Nat.lt_of_lt_of_le hj
      (hrefs p (List.mem_cons_self p ps))))]
    exact hget j hj

theorem scan_surfacesH_heap (controls : List SecurityControl)
    (h : SurfHeap) :
    ∀ (refs : List Nat) (added : List SuggKey),
    (scan_surfacesH controls h refs added).2 = h := by
  intro refs
  induction refs with
  | nil => intro added; rfl
  | cons r rs ih =>
    intro added
    rw [scan_surfacesH]
    exact ih _

/-- C9: the pipeline never mutates its inputs.  In the heap-passing
embedding (the only objects the Python engine assigns to are the surface
records, so only those live in the heap; the application, its zones,
services, databases, and both catalogs are passed by value because the
source contains no assignment to them) `identify_attack_surfaces` leaves
every pre-existing heap cell untouched and only ever writes to cells it
allocated itself, and `suggest_security_controls` returns the heap it
was given unchanged, its reads being its only heap operations. -/
theorem c9_no_input_mutation (app : Application)
    (known : List Vulnerability) (h0 : SurfHeap) :
    (∀ i, i < h0.length →
      (identify_attack_surfacesH app known h0).1[i]? = h0[i]?) ∧
    (∀ r ∈ (identify_attack_surfacesH app known h0).2, h0.length ≤ r) ∧
    (∀ (h : SurfHeap) (refs : List Nat)
      (controls : List SecurityControl),
      (suggest_security_controlsH h refs controls).2 = h) := by
  have hbase : HeapInv h0 (h0, []) :=
    ⟨Nat.le_refl _, fun i _ => rfl, fun p hp => absurd hp (List.not_mem_nil p)⟩
  have hinv : HeapInv h0 (scan_databasesH (scan_servicesH (h0, [])
      app.services) app.databases) :=
    heapInv_scan_databasesH h0 app.databases _
      (heapInv_scan_servicesH h0 app.services _ hbase)
  refine ⟨?_, ?_, ?_⟩
  · intro i hi
    exact attach_phaseH_frame h0 known _ _
      (fun p hp => (hinv.2.2 p hp).1) hinv.2.1 i hi
  · intro r hr
    obtain ⟨p, hp, rfl⟩ := List.mem_map.mp hr
    exact (hinv.2.2 p hp).1
  · intro h refs controls
    exact scan_surfacesH_heap controls h refs []

/-- Witness for C9 at a concrete input: a pre-existing heap cell
survives a run of the identifier, and the recommender hands its heap
back. -/
theorem c9_no_input_mutation_witness :
    0 < ([exSurfaceWeb] : SurfHeap).length ∧
    (identify_attack_surfacesH exApp [vGeneric] [exSurfaceWeb]).1[0]?
      = ([exSurfaceWeb] : SurfHeap)[0]? ∧
    (suggest_security_controlsH [exSurfaceWeb] [1] [cBoth]).2
      = [exSurfaceWeb] :=
  ⟨by decide,
    (c9_no_input_mutation exApp [vGeneric] [exSurfaceWeb]).1 0 (by decide),
    (c9_no_input_mutation exApp [vGeneric] [exSurfaceWeb]).2.2
      [exSurfaceWeb] [1] [cBoth]⟩

end ThreatModel
